import Mathlib

/-!
# A formal model of the mealie_translate recipe-translation pipeline

This file embeds, in Lean, the parts of the `mealie_translate` Python
package that its specification makes claims about:

* `MealieClient.is_recipe_processed` (src/mealie_translate/mealie_client.py,
  lines 215-227), modelled over a small universe of Python values so that
  its dynamic-typing behaviour (AttributeError on non-string marker values)
  is visible;
* the ingredient numbered-line batch protocol
  (`_translate_ingredient_batch`, src/mealie_translate/translator.py lines
  222-287 and src/mealie_translate/openai_translator.py lines 282-350; the
  two bodies implement the identical protocol);
* the retry-with-exponential-backoff loop `_call_openai`
  (src/mealie_translate/translator.py lines 316-361 and
  src/mealie_translate/openai_translator.py lines 399-431; the two loops
  differ only in the exception they raise after exhaustion);
* the batch orchestrator `RecipeProcessor.process_all_recipes`,
  `process_single_recipe` and `_process_recipe_batch`
  (src/mealie_translate/recipe_processor.py), together with the store
  operations of `MealieClient` they drive (`get_recipe_details`,
  `update_recipe`, `mark_recipe_as_processed`), threaded over an explicit
  store state with injectable failure behaviour for the network calls.

External I/O (HTTP, sleeping, logging) is represented by explicit
environment parameters; every definition is executable.

Python string primitives (`str.split`, `str.strip`, `str.lower`) are
modelled by structurally recursive functions over `String.data`, because
Lean's own `String.splitOn`/`trim`/`toLower` are position-based and do not
reduce inside the kernel.  The models match Python on the ASCII texts the
program manipulates (Python's unicode-aware casing and whitespace classes
coincide with the ASCII ones there).
-/

namespace MealieTranslate

/-! ## Python string primitives -/

/-- `str.lower`, ASCII casing. -/
def pyLowerStr (s : String) : String :=
  ⟨s.data.map Char.toLower⟩

/-- `str.strip()` with no argument: drop whitespace from both ends. -/
def pyStrip (s : String) : String :=
  ⟨((s.data.dropWhile Char.isWhitespace).reverse.dropWhile Char.isWhitespace).reverse⟩

/-- `s.split("\n")`: split at every newline, keeping empty pieces
(`"".split("\n") == [""]`). -/
def splitNlChars : List Char → List (List Char)
  | [] => [[]]
  | c :: rest =>
    if c = '\n' then [] :: splitNlChars rest
    else
      match splitNlChars rest with
      | [] => [[c]]
      | g :: gs => (c :: g) :: gs

/-- `s.split("\n")` on `String`. -/
def pySplitNl (s : String) : List String :=
  (splitNlChars s.data).map (fun cs => ⟨cs⟩)

/-- The text after the first occurrence of `". "`, scanning left to right;
`none` when `". " not in line`. -/
def afterNumbering : List Char → Option (List Char)
  | '.' :: ' ' :: rest => some rest
  | _ :: rest => afterNumbering rest
  | [] => none

/-! ## Python value universe for `is_recipe_processed`

`is_recipe_processed` receives an arbitrary decoded-JSON dictionary, so its
behaviour depends on Python's dynamic typing.  `PyVal` covers the value
shapes the claims exercise; `PyError.attributeError` stands for the
`AttributeError` Python raises when `.get` or `.lower` is called on a value
that lacks the method. -/

inductive PyVal : Type where
  | pstr (s : String)
  | pint (n : Int)
  | pbool (b : Bool)
  | pnone
  | pdict (entries : List (String × PyVal))

deriving instance DecidableEq for Except

inductive PyError : Type where
  | attributeError
  deriving DecidableEq, Repr

/-- First-match association lookup, the semantics of a Python dict read
(Python dicts cannot hold a key twice). -/
def pyLookup : List (String × PyVal) → String → Option PyVal
  | [], _ => none
  | (k, v) :: rest, key => if k = key then some v else pyLookup rest key

/-- `v.get(key, default)`: dictionary lookup with a default.  On a receiver
that is not a dict (for example `None`), Python raises `AttributeError`. -/
def pyDictGet (v : PyVal) (key : String) (dflt : PyVal) : Except PyError PyVal :=
  match v with
  | .pdict es => .ok ((pyLookup es key).getD dflt)
  | _ => .error .attributeError

/-- `v.lower()`: string lowercasing.  On a non-string receiver (int, bool,
`None`, dict) Python raises `AttributeError`. -/
def pyLowerVal (v : PyVal) : Except PyError String :=
  match v with
  | .pstr s => .ok (pyLowerStr s)
  | _ => .error .attributeError

/-- `MealieClient.is_recipe_processed` (mealie_client.py lines 215-227):

    extras = recipe.get("extras", {})
    translated_value = extras.get("translated", "")
    return translated_value.lower() in ["true", "1"]
-/
def is_recipe_processed (recipe : PyVal) : Except PyError Bool := do
  let extras ← pyDictGet recipe "extras" (.pdict [])
  let translated_value ← pyDictGet extras "translated" (.pstr "")
  let lowered ← pyLowerVal translated_value
  return (lowered = "true" || lowered = "1" : Bool)

/-! ## The ingredient numbered-line batch protocol

`_translate_ingredient_batch` joins the input texts into numbered lines,
sends them in one provider call, splits the response by newline, strips the
leading numbering from each line, pads the list with the original texts and
truncates it to the input count.  The surrounding prompt prose does not
affect the protocol, so the provider call is modelled as a function from
the numbered payload to the response text. -/

/-- `"\n".join(f"{i + 1}. {text}" for i, text in enumerate(texts))` -/
def numberedPayload (texts : List String) : String :=
  String.intercalate "\n" (texts.enum.map (fun p => toString (p.1 + 1) ++ ". " ++ p.2))

/-- One response line: `line.split(". ", 1)[1] if ". " in line else line`. -/
def stripNumbering (line : String) : String :=
  match afterNumbering line.data with
  | some rest => ⟨rest⟩
  | none => line

/-- `response.strip().split("\n")` followed by per-line numbering removal. -/
def parsedLines (response : String) : List String :=
  (pySplitNl (pyStrip response)).map stripNumbering

/-- The pad/truncate tail of `_translate_ingredient_batch`:

    while len(translated_texts) < len(texts):
        translated_texts.append(texts[len(translated_texts)])
    return translated_texts[: len(texts)]

The while-loop appends `texts[k]` for `k = out.length, ...`, which is
exactly appending `texts.drop out.length`; the final slice is `take`. -/
def padTruncate (texts out : List String) : List String :=
  (out ++ texts.drop out.length).take texts.length

/-- `_translate_ingredient_batch` (translator.py lines 222-287,
openai_translator.py lines 282-350), with the provider call abstracted as
`call : numbered payload → response text`. -/
def translate_ingredient_batch (call : String → String) (texts : List String) : List String :=
  if texts.isEmpty then texts
  else padTruncate texts (parsedLines (call (numberedPayload texts)))

/-! ## The `_call_openai` retry loop

Both `RecipeTranslator._call_openai` (translator.py lines 316-361) and
`OpenAITranslator._call_openai` (openai_translator.py lines 399-431) run the
same loop:

    for attempt in range(self.max_retries):
        try:
            response = self.client.chat.completions.create(...)
            content = response.choices[0].message.content
            return content.strip() if content else ""
        except Exception as e:
            if attempt < self.max_retries - 1:
                time.sleep(self.retry_delay * (2**attempt))
            else:
                raise <exhaustion error> from e
    return ""

They differ only in the exhaustion error: the legacy `RecipeTranslator`
raises a bare `Exception` (message only, chained from the cause), while
`OpenAITranslator` raises `TranslationError(..., provider="openai",
cause=e)`.  The provider call is an oracle from the attempt index to either
an exception (identified by a numeric id) or the returned message content
(`none` models a null content field).  The model records how many attempts
were made and the argument of every `time.sleep`. -/

/-- What the exhausted loop raises.  `typed` is true for
`TranslationError`; `provider` and `cause` are its fields (`cause` is the
id of the exception of the last attempt; the legacy bare `Exception` is
also chained from its cause, but is untyped and carries no provider). -/
structure RaisedInfo where
  typed : Bool
  provider : Option String
  cause : Option Nat
  deriving DecidableEq, Repr

/-- The outcome of running the retry loop: number of provider attempts
made, the sleep durations between consecutive attempts, and the value
returned or error raised. -/
structure CallOutcome where
  attempts : Nat
  sleeps : List Nat
  result : Except RaisedInfo String
  deriving DecidableEq, Repr

/-- `content.strip() if content else ""` -/
def contentOrEmpty : Option String → String
  | some s => pyStrip s
  | none => ""

/-- The loop body, by remaining-iteration count (`fuel` starts at
`max_retries`, so `attempt = max_retries - fuel`; when the `for` loop falls
through without returning, which happens only for `max_retries = 0`, the
trailing `return ""` fires). -/
def callLoopGo (oracle : Nat → Except Nat (Option String)) (mk : Nat → RaisedInfo)
    (max_retries retry_delay : Nat) :
    Nat → Nat → List Nat → CallOutcome
  | 0, attempt, sleeps => ⟨attempt, sleeps, .ok ""⟩
  | fuel + 1, attempt, sleeps =>
    match oracle attempt with
    | .ok content => ⟨attempt + 1, sleeps, .ok (contentOrEmpty content)⟩
    | .error e =>
      if attempt < max_retries - 1 then
        callLoopGo oracle mk max_retries retry_delay fuel (attempt + 1)
          (sleeps ++ [retry_delay * 2 ^ attempt])
      else
        ⟨attempt + 1, sleeps, .error (mk e)⟩

/-- `RecipeTranslator._call_openai` (translator.py lines 316-361): raises
`Exception(f"Failed to translate after {max_retries} attempts: {e}") from e`
— an untyped error with no provider tag. -/
def call_openai_legacy (oracle : Nat → Except Nat (Option String))
    (max_retries retry_delay : Nat) : CallOutcome :=
  callLoopGo oracle (fun e => ⟨false, none, some e⟩) max_retries retry_delay max_retries 0 []

/-- `OpenAITranslator._call_openai` (openai_translator.py lines 399-431):
raises `TranslationError(..., provider="openai", cause=e) from e`. -/
def call_openai_typed (oracle : Nat → Except Nat (Option String))
    (max_retries retry_delay : Nat) : CallOutcome :=
  callLoopGo oracle (fun e => ⟨true, some "openai", some e⟩) max_retries retry_delay max_retries 0 []

/-! ## The batch orchestrator

`RecipeProcessor` (recipe_processor.py) drives `MealieClient` and
`RecipeTranslator`.  The model makes the mutable server state an explicit
association list from recipe identifier to recipe, and gathers the
injectable behaviour of the two network collaborators into `Env`:

* `listing` — what `get_all_recipes` returns (summary records; the
  orchestrator only ever reads their `slug`/`id` fields);
* `fetchRaises` — `get_recipe_details` raising a non-404 HTTP error for a
  slug (a 404 is modelled by the slug being absent from the store);
* `translateText` — the provider rewriting the text content of a recipe,
  or raising;
* `updateOutcome` — `update_recipe` succeeding (it then returns `True` and
  the store is replaced at that slug) or raising `requests.RequestException`
  (it never returns `False`: every non-2xx response raises).

A recipe detail record keeps only what the orchestrator inspects: its
translatable text (`content`, abstracting name/description/instructions/
ingredients/notes, which `RecipeTranslator.translate_recipe` rewrites while
copying everything else, the `extras` bag included) and the string-valued
`extras` bag (an absent bag and an empty bag are indistinguishable to every
read and write involved, so `extras` is always a list here).
`time.sleep` pacing calls are dropped: they return nothing. -/

/-- A summary record from the listing endpoint. -/
structure Summary where
  slug : Option String
  id : Option String
  deriving DecidableEq, Repr

/-- Python string truthiness: `None` and `""` are falsy. -/
def strTruthy : Option String → Option String
  | some s => if s = "" then none else some s
  | none => none

/-- `recipe.get("slug") or recipe.get("id")` followed by the
`if recipe_slug:` truthiness guard, collapsed into one `Option`. -/
def Summary.ident (s : Summary) : Option String :=
  match strTruthy s.slug with
  | some v => some v
  | none => strTruthy s.id

/-- A full recipe detail record, as far as the orchestrator reads it. -/
structure Recipe where
  content : String
  extras : List (String × String)
  deriving DecidableEq, Repr

/-- The recipe store: identifier-keyed association list (first match
wins, matching dictionary semantics). -/
abbrev Store := List (String × Recipe)

def assocFind : Store → String → Option Recipe
  | [], _ => none
  | (k, v) :: rest, key => if k = key then some v else assocFind rest key

/-- Replace the first binding of `key`, or append one. -/
def storeSet : Store → String → Recipe → Store
  | [], key, r => [(key, r)]
  | (k, v) :: rest, key, r =>
    if k = key then (key, r) :: rest else (k, v) :: storeSet rest key r

/-- String-valued `extras` write: `recipe["extras"]["translated"] = "true"`. -/
def extrasSet : List (String × String) → String → String → List (String × String)
  | [], key, v => [(key, v)]
  | (k, w) :: rest, key, v =>
    if k = key then (key, v) :: rest else (k, w) :: extrasSet rest key v

def extrasFind : List (String × String) → String → Option String
  | [], _ => none
  | (k, v) :: rest, key => if k = key then some v else extrasFind rest key

/-- `MealieClient.is_recipe_processed` restricted to recipes whose
`extras` values are strings — the only shape this orchestrator model
stores.  `isProcessedAgrees` below ties it to the dynamically-typed
`is_recipe_processed`. -/
def Recipe.isProcessed (r : Recipe) : Bool :=
  match extrasFind r.extras "translated" with
  | some v => pyLowerStr v = "true" || pyLowerStr v = "1"
  | none => false

/-- The injectable behaviour of the store and the provider. -/
structure Env where
  listing : List Summary
  fetchRaises : String → Bool
  translateText : String → Except Unit String
  updateOutcome : String → Recipe → Except Unit Unit

/-- `MealieClient.get_recipe_details` (mealie_client.py lines 112-143):
raises on a non-404 HTTP error, returns `None` on 404, the record
otherwise. -/
def get_recipe_details (env : Env) (store : Store) (slug : String) :
    Except Unit (Option Recipe) :=
  if env.fetchRaises slug then .error () else .ok (assocFind store slug)

/-- `MealieClient.update_recipe` (mealie_client.py lines 145-182): on a 2xx
response returns `True` with the store replaced at `slug`; every failure
raises (the function has no `return False` path). -/
def update_recipe (env : Env) (store : Store) (slug : String) (r : Recipe) :
    Except Unit (Bool × Store) :=
  match env.updateOutcome slug r with
  | .ok _ => .ok (true, storeSet store slug r)
  | .error e => .error e

/-- `recipe["extras"]["translated"] = "true"` (creating the bag if
absent, which the all-string model represents as the empty list). -/
def setMarker (r : Recipe) : Recipe :=
  { r with extras := extrasSet r.extras "translated" "true" }

/-- `MealieClient.mark_recipe_as_processed` (mealie_client.py lines
184-213): fetch, return early if already marked, set the marker, update;
any exception is caught and turned into `False`. -/
def mark_recipe_as_processed (env : Env) (store : Store) (slug : String) :
    Bool × Store :=
  match get_recipe_details env store slug with
  | .error _ => (false, store)
  | .ok none => (false, store)
  | .ok (some r) =>
    if r.isProcessed then (true, store)
    else
      match update_recipe env store slug (setMarker r) with
      | .ok (b, store1) => (b, store1)
      | .error _ => (false, store)

/-- `RecipeTranslator.translate_recipe` (translator.py lines 66-105):
copies the record and rewrites only its text fields; `extras` is
untouched.  Raises whatever the provider call raises. -/
def translate_recipe (env : Env) (r : Recipe) : Except Unit Recipe :=
  match env.translateText r.content with
  | .ok c => .ok { r with content := c }
  | .error e => .error e

/-- Configuration fields the orchestrator reads (config.py), with the
declared defaults.  `dry_run` and `dry_run_limit` are declared in
`Settings` (config.py lines 35-37) and are carried here so that claims
about them can be stated; which code reads them is exactly what claim C4
is about. -/
structure ProcSettings where
  batch_size : Nat := 10
  max_retries : Nat := 3
  retry_delay : Nat := 1
  dry_run : Bool := false
  dry_run_limit : Nat := 5
  deriving DecidableEq, Repr

/-- The state threaded through per-item processing: the store plus the
batch counters and, for the claims about ordering and idempotence, the
trace of items attempted and of translator invocations. -/
structure BState where
  store : Store
  processed : Nat
  skipped : Nat
  failed : Nat
  transCalls : List String
  itemOrder : List Summary

/-- One iteration of the loop in `RecipeProcessor._process_recipe_batch`
(recipe_processor.py lines 197-254).  The `try` block catches every
exception and counts the item failed; a `mark_recipe_as_processed` failure
only warns. -/
def processItem (env : Env) (st : BState) (s : Summary) : BState :=
  match s.ident with
  | none =>
    { st with itemOrder := st.itemOrder ++ [s], skipped := st.skipped + 1 }
  | some slug =>
    match get_recipe_details env st.store slug with
    | .error _ =>
      { st with itemOrder := st.itemOrder ++ [s], failed := st.failed + 1 }
    | .ok none =>
      { st with itemOrder := st.itemOrder ++ [s], failed := st.failed + 1 }
    | .ok (some full) =>
      if full.isProcessed then
        { st with itemOrder := st.itemOrder ++ [s], skipped := st.skipped + 1 }
      else
        match translate_recipe env full with
        | .error _ =>
          { st with itemOrder := st.itemOrder ++ [s],
                    transCalls := st.transCalls ++ [slug], failed := st.failed + 1 }
        | .ok tr =>
          match update_recipe env st.store slug tr with
          | .error _ =>
            { st with itemOrder := st.itemOrder ++ [s],
                      transCalls := st.transCalls ++ [slug], failed := st.failed + 1 }
          | .ok (success, store1) =>
            if success then
              { st with itemOrder := st.itemOrder ++ [s],
                        transCalls := st.transCalls ++ [slug],
                        store := (mark_recipe_as_processed env store1 slug).2,
                        processed := st.processed + 1 }
            else
              { st with itemOrder := st.itemOrder ++ [s],
                        transCalls := st.transCalls ++ [slug],
                        store := store1, failed := st.failed + 1 }

/-- `RecipeProcessor._process_recipe_batch` (recipe_processor.py lines
188-256): fold the item step over the batch, starting from fresh
per-batch counters. -/
def process_recipe_batch (env : Env) (store : Store) (batch : List Summary) : BState :=
  batch.foldl (processItem env) ⟨store, 0, 0, 0, [], []⟩

/-- The eligibility filter of `process_all_recipes` (recipe_processor.py
lines 48-63).  It runs with no `try`, so a raising detail fetch propagates
out of the whole run.  Returns the kept summaries (in listing order), the
count of candidates skipped as already processed (the `elif full_recipe:`
debug branch) and the count of candidates dropped silently — a falsy
slug/id, or a detail fetch returning `None`. -/
def filterRecipes (env : Env) (store : Store) :
    List Summary → Except Unit (List Summary × Nat × Nat)
  | [] => .ok ([], 0, 0)
  | s :: rest =>
    match s.ident with
    | none =>
      match filterRecipes env store rest with
      | .error e => .error e
      | .ok (u, a, d) => .ok (u, a, d + 1)
    | some slug =>
      match get_recipe_details env store slug with
      | .error e => .error e
      | .ok fr =>
        match filterRecipes env store rest with
        | .error e => .error e
        | .ok (u, a, d) =>
          match fr with
          | none => .ok (u, a, d + 1)
          | some full =>
            if full.isProcessed then .ok (u, a + 1, d)
            else .ok (s :: u, a, d)

/-- The batch partition of `process_all_recipes` (recipe_processor.py
lines 86-92):

    total_batches = (len(unprocessed_recipes) + batch_size - 1) // batch_size
    ... batch = unprocessed_recipes[batch_num * batch_size : ... + batch_size]
-/
def batchesOf (b : Nat) (l : List Summary) : List (List Summary) :=
  (List.range ((l.length + b - 1) / b)).map (fun i => (l.drop (i * b)).take b)

/-- The statistics dictionary `process_all_recipes` returns. -/
structure RunStats where
  total_recipes : Nat
  processed : Nat
  skipped : Nat
  failed : Nat
  deriving DecidableEq, Repr

/-- The observable outcome of a run: the returned statistics plus the
run's accounting events — the filter-stage counts and the accumulated
batch-stage counters — and the traces. -/
structure RunResult where
  stats : RunStats
  filterSkips : Nat
  filterDrops : Nat
  batchProcessed : Nat
  batchSkipped : Nat
  batchFailed : Nat
  transCalls : List String
  itemOrder : List Summary
  deriving DecidableEq

/-- The per-batch accumulation step of `process_all_recipes` (lines
99-103): run `_process_recipe_batch` on the current store and add its
counters (and traces) into the running totals. -/
def batchStep (env : Env) (acc : BState) (batch : List Summary) : BState :=
  let bs := process_recipe_batch env acc.store batch
  ⟨bs.store, acc.processed + bs.processed, acc.skipped + bs.skipped,
   acc.failed + bs.failed, acc.transCalls ++ bs.transCalls,
   acc.itemOrder ++ bs.itemOrder⟩

/-- `RecipeProcessor.process_all_recipes` (recipe_processor.py lines
27-120): list, filter, return early on an empty listing or an empty
eligible set, otherwise process the eligible set in batches, adding each
batch's `processed`/`skipped`/`failed` into the run statistics. -/
def process_all_recipes (env : Env) (settings : ProcSettings) (store : Store) :
    Except Unit (RunResult × Store) :=
  if env.listing.isEmpty then
    .ok (⟨⟨0, 0, 0, 0⟩, 0, 0, 0, 0, 0, [], []⟩, store)
  else
    match filterRecipes env store env.listing with
    | .error e => .error e
    | .ok (unproc, aSkips, drops) =>
      if unproc.isEmpty then
        .ok (⟨⟨env.listing.length, 0, env.listing.length, 0⟩,
              aSkips, drops, 0, 0, 0, [], []⟩, store)
      else
        let final := (batchesOf settings.batch_size unproc).foldl
          (batchStep env) ⟨store, 0, 0, 0, [], []⟩
        .ok (⟨⟨unproc.length, final.processed, final.skipped, final.failed⟩,
              aSkips, drops, final.processed, final.skipped, final.failed,
              final.transCalls, final.itemOrder⟩, final.store)

/-- `RecipeProcessor.process_single_recipe` (recipe_processor.py lines
122-169): the single-recipe entry point; every exception inside is caught
and turned into `False`, an already-processed recipe and a
mark-as-processed failure both leave the result `True`. -/
def process_single_recipe (env : Env) (store : Store) (slug : String) :
    Bool × Store :=
  match get_recipe_details env store slug with
  | .error _ => (false, store)
  | .ok none => (false, store)
  | .ok (some r) =>
    if r.isProcessed then (true, store)
    else
      match translate_recipe env r with
      | .error _ => (false, store)
      | .ok tr =>
        match update_recipe env store slug tr with
        | .error _ => (false, store)
        | .ok (success, store1) =>
          if success then
            let marked := mark_recipe_as_processed env store1 slug
            (true, marked.2)
          else (false, store1)

/-! ## Concrete scenarios

Small closed stores and environments used by the witnesses and
counterexamples below.  `listingTwo`/`storeOneOfTwo` realise a listing
whose first recipe is absent from the store (its detail fetch returns
`None`, so the filter drops it silently); the other scenarios are healthy
stores with various update behaviours injected. -/

def sumA : Summary := ⟨some "a", none⟩
def sumB : Summary := ⟨some "b", none⟩
def sumC : Summary := ⟨some "c", none⟩
def sumD : Summary := ⟨some "d", none⟩
def sumE : Summary := ⟨some "e", none⟩

/-- Listing of two recipes, of which only `b` resolves in the store. -/
def envDrop : Env := ⟨[sumA, sumB], fun _ => false, fun c => .ok c, fun _ _ => .ok ()⟩
def storeDrop : Store := [("b", ⟨"beef stew", []⟩)]
def storeDropFinal : Store := [("b", ⟨"beef stew", [("translated", "true")]⟩)]
def resDrop : RunResult := ⟨⟨1, 1, 0, 0⟩, 0, 1, 1, 0, 0, ["b"], [sumB]⟩

/-- A healthy two-recipe store; `b` is already marked (uppercase). -/
def envTwo : Env := ⟨[sumA, sumB], fun _ => false, fun c => .ok (c ++ "!"), fun _ _ => .ok ()⟩
def storeTwo : Store := [("a", ⟨"x", []⟩), ("b", ⟨"y", [("translated", "TRUE")]⟩)]

/-- Three eligible recipes; every update to `b` raises. -/
def envOneBad : Env := ⟨[sumA, sumB, sumC], fun _ => false, fun c => .ok c,
  fun slug _ => if slug = "b" then .error () else .ok ()⟩
def storeThree : Store := [("a", ⟨"pa", []⟩), ("b", ⟨"pb", []⟩), ("c", ⟨"pc", []⟩)]

/-- Three eligible recipes, everything healthy. -/
def envThree : Env := ⟨[sumA, sumB, sumC], fun _ => false, fun c => .ok c, fun _ _ => .ok ()⟩
def resThree : RunResult := ⟨⟨3, 3, 0, 0⟩, 0, 0, 3, 0, 0, ["a", "b", "c"], [sumA, sumB, sumC]⟩
def storeThreeFinal : Store :=
  [("a", ⟨"pa", [("translated", "true")]⟩), ("b", ⟨"pb", [("translated", "true")]⟩),
   ("c", ⟨"pc", [("translated", "true")]⟩)]

/-- Five eligible recipes, everything healthy: the dry-run failing input
(`dry_run = true`, `dry_run_limit = 3`). -/
def envFive : Env := ⟨[sumA, sumB, sumC, sumD, sumE], fun _ => false, fun c => .ok c,
  fun _ _ => .ok ()⟩
def storeFive : Store :=
  [("a", ⟨"pa", []⟩), ("b", ⟨"pb", []⟩), ("c", ⟨"pc", []⟩), ("d", ⟨"pd", []⟩),
   ("e", ⟨"pe", []⟩)]
def settingsDryRun : ProcSettings := { batch_size := 10, dry_run := true, dry_run_limit := 3 }

/-- One recipe; the content update succeeds but the marker write (the only
update whose payload is marked) raises, so `mark_recipe_as_processed`
returns `False`. -/
def envMarkFails : Env := ⟨[sumA], fun _ => false, fun c => .ok c,
  fun _ q => if q.isProcessed then .error () else .ok ()⟩
def storeOne : Store := [("a", ⟨"pa", []⟩)]

/-! ## Helper lemmas: store and extras operations -/

theorem assocFind_storeSet_self (st : Store) (k : String) (r : Recipe) :
    assocFind (storeSet st k r) k = some r := by
  induction st with
  | nil => simp [storeSet, assocFind]
  | cons p rest ih =>
    by_cases h : p.1 = k
    · simp [storeSet, h, assocFind]
    · simpa [storeSet, h, assocFind] using ih

theorem assocFind_storeSet_ne (st : Store) (k k' : String) (r : Recipe) (h : k' ≠ k) :
    assocFind (storeSet st k r) k' = assocFind st k' := by
  induction st with
  | nil => simp [storeSet, assocFind, Ne.symm h]
  | cons p rest ih =>
    by_cases hk : p.1 = k
    · subst hk
      simp [storeSet, assocFind, Ne.symm h]
    · by_cases hk' : p.1 = k'
      · subst hk'
        simp [storeSet, hk, assocFind]
      · simp [storeSet, hk, assocFind, hk', ih]

theorem assocFind_storeSet_isSome (st : Store) (k k' : String) (r : Recipe)
    (h : (assocFind st k').isSome) : (assocFind (storeSet st k r) k').isSome := by
  by_cases hk : k' = k
  · subst hk
    simp [assocFind_storeSet_self]
  · rwa [assocFind_storeSet_ne st k k' r hk]

theorem extrasFind_extrasSet_self (es : List (String × String)) (k v : String) :
    extrasFind (extrasSet es k v) k = some v := by
  induction es with
  | nil => simp [extrasSet, extrasFind]
  | cons p rest ih =>
    by_cases h : p.1 = k
    · simp [extrasSet, h, extrasFind]
    · simpa [extrasSet, h, extrasFind] using ih

theorem isProcessed_setMarker (r : Recipe) : (setMarker r).isProcessed = true := by
  simp [setMarker, Recipe.isProcessed, extrasFind_extrasSet_self]
  decide

theorem translate_recipe_extras (env : Env) (r tr : Recipe)
    (h : translate_recipe env r = .ok tr) : tr.extras = r.extras := by
  unfold translate_recipe at h
  cases he : env.translateText r.content with
  | ok c => rw [he] at h; cases h; rfl
  | error e => rw [he] at h; cases h

theorem isProcessed_extras_eq (r r' : Recipe) (h : r'.extras = r.extras) :
    r'.isProcessed = r.isProcessed := by
  unfold Recipe.isProcessed
  rw [h]

/-! ## Helper lemmas: the per-item step -/

/-- A slug is marked processed in a store. -/
def Marked (store : Store) (slug : String) : Prop :=
  ∃ r, assocFind store slug = some r ∧ r.isProcessed = true

/-- `mark_recipe_as_processed` writes only at its own slug. -/
theorem mark_store_frame (env : Env) (store : Store) (slug slug' : String)
    (h : slug' ≠ slug) :
    assocFind (mark_recipe_as_processed env store slug).2 slug' = assocFind store slug' := by
  unfold mark_recipe_as_processed
  cases hf : get_recipe_details env store slug with
  | error e => rfl
  | ok o =>
    cases o with
    | none => rfl
    | some r =>
      by_cases hp : r.isProcessed
      · simp [hp]
      · simp only [hp]
        unfold update_recipe
        cases hu : env.updateOutcome slug (setMarker r) with
        | ok u => simp [assocFind_storeSet_ne store slug slug' _ h]
        | error e => simp

/-- `mark_recipe_as_processed` never removes a key. -/
theorem mark_store_isSome (env : Env) (store : Store) (slug slug' : String)
    (h : (assocFind store slug').isSome) :
    (assocFind (mark_recipe_as_processed env store slug).2 slug').isSome := by
  unfold mark_recipe_as_processed
  cases hf : get_recipe_details env store slug with
  | error e => exact h
  | ok o =>
    cases o with
    | none => exact h
    | some r =>
      by_cases hp : r.isProcessed
      · simpa [hp]
      · simp only [hp]
        unfold update_recipe
        cases hu : env.updateOutcome slug (setMarker r) with
        | ok u => simpa using assocFind_storeSet_isSome store slug slug' _ h
        | error e => simpa

theorem update_recipe_ok (env : Env) (store : Store) (slug : String) (r : Recipe)
    (b : Bool) (store' : Store) (h : update_recipe env store slug r = .ok (b, store')) :
    b = true ∧ store' = storeSet store slug r := by
  unfold update_recipe at h
  cases hu : env.updateOutcome slug r with
  | ok u => rw [hu] at h; cases h; exact ⟨rfl, rfl⟩
  | error e => rw [hu] at h; cases h

/-- `processItem` leaves the state's counters shifted by what it does from
a zeroed state over the same store: counters and traces accumulate. -/
theorem processItem_shift (env : Env) (st : BState) (s : Summary) :
    processItem env st s =
      ⟨(processItem env ⟨st.store, 0, 0, 0, [], []⟩ s).store,
       st.processed + (processItem env ⟨st.store, 0, 0, 0, [], []⟩ s).processed,
       st.skipped + (processItem env ⟨st.store, 0, 0, 0, [], []⟩ s).skipped,
       st.failed + (processItem env ⟨st.store, 0, 0, 0, [], []⟩ s).failed,
       st.transCalls ++ (processItem env ⟨st.store, 0, 0, 0, [], []⟩ s).transCalls,
       st.itemOrder ++ (processItem env ⟨st.store, 0, 0, 0, [], []⟩ s).itemOrder⟩ := by
  obtain ⟨store, p, k, f, tc, io⟩ := st
  unfold processItem
  cases hid : s.ident with
  | none => simp [hid]
  | some slug =>
    cases hf : get_recipe_details env store slug with
    | error e => simp [hid, hf]
    | ok o =>
      cases o with
      | none => simp [hid, hf]
      | some full =>
        by_cases hp : full.isProcessed = true
        · simp [hid, hf, hp]
        · cases ht : translate_recipe env full with
          | error e => simp [hid, hf, hp, ht]
          | ok tr =>
            cases hu : update_recipe env store slug tr with
            | error e => simp [hid, hf, hp, ht, hu]
            | ok pr =>
              obtain ⟨success, store1⟩ := pr
              cases success <;> simp [hid, hf, hp, ht, hu]

/-- Every item accounts for exactly one of `processed`/`skipped`/`failed`. -/
theorem processItem_counts (env : Env) (st : BState) (s : Summary) :
    (processItem env st s).processed + (processItem env st s).skipped +
      (processItem env st s).failed =
    st.processed + st.skipped + st.failed + 1 := by
  unfold processItem
  cases hid : s.ident with
  | none => simp [hid]; omega
  | some slug =>
    cases hf : get_recipe_details env st.store slug with
    | error e => simp [hid, hf]; omega
    | ok o =>
      cases o with
      | none => simp [hid, hf]; omega
      | some full =>
        by_cases hp : full.isProcessed = true
        · simp [hid, hf, hp]; omega
        · cases ht : translate_recipe env full with
          | error e => simp [hid, hf, hp, ht]; omega
          | ok tr =>
            cases hu : update_recipe env st.store slug tr with
            | error e => simp [hid, hf, hp, ht, hu]; omega
            | ok pr =>
              obtain ⟨success, store1⟩ := pr
              cases success <;> simp [hid, hf, hp, ht, hu] <;> omega

/-- `processItem` records exactly its item in the attempt order. -/
theorem processItem_itemOrder (env : Env) (st : BState) (s : Summary) :
    (processItem env st s).itemOrder = st.itemOrder ++ [s] := by
  unfold processItem
  cases hid : s.ident with
  | none => simp [hid]
  | some slug =>
    cases hf : get_recipe_details env st.store slug with
    | error e => simp [hid, hf]
    | ok o =>
      cases o with
      | none => simp [hid, hf]
      | some full =>
        by_cases hp : full.isProcessed = true
        · simp [hid, hf, hp]
        · cases ht : translate_recipe env full with
          | error e => simp [hid, hf, hp, ht]
          | ok tr =>
            cases hu : update_recipe env st.store slug tr with
            | error e => simp [hid, hf, hp, ht, hu]
            | ok pr =>
              obtain ⟨success, store1⟩ := pr
              cases success <;> simp [hid, hf, hp, ht, hu]

/-- `processItem` writes the store only at its own item's identifier. -/
theorem processItem_store_frame (env : Env) (st : BState) (s : Summary) (slug' : String)
    (h : ∀ u, s.ident = some u → slug' ≠ u) :
    assocFind (processItem env st s).store slug' = assocFind st.store slug' := by
  unfold processItem
  cases hid : s.ident with
  | none => simp
  | some slug =>
    have hne : slug' ≠ slug := h slug hid
    cases hf : get_recipe_details env st.store slug with
    | error e => simp [hid, hf]
    | ok o =>
      cases o with
      | none => simp [hid, hf]
      | some full =>
        by_cases hp : full.isProcessed = true
        · simp [hid, hf, hp]
        · cases ht : translate_recipe env full with
          | error e => simp [hid, hf, hp, ht]
          | ok tr =>
            cases hu : update_recipe env st.store slug tr with
            | error e => simp [hid, hf, hp, ht, hu]
            | ok pr =>
              obtain ⟨success, store1⟩ := pr
              obtain ⟨hb, hstore1⟩ := update_recipe_ok env st.store slug tr success store1 hu
              subst hb
              subst hstore1
              simp only [hid, hf, hp, ht, hu, Bool.false_eq_true, if_false, if_true]
              rw [mark_store_frame env _ slug slug' hne,
                assocFind_storeSet_ne st.store slug slug' tr hne]

/-- `processItem` never removes a store key. -/
theorem processItem_present (env : Env) (st : BState) (s : Summary) (slug' : String)
    (h : (assocFind st.store slug').isSome) :
    (assocFind (processItem env st s).store slug').isSome := by
  unfold processItem
  cases hid : s.ident with
  | none => simpa [hid]
  | some slug =>
    cases hf : get_recipe_details env st.store slug with
    | error e => simpa [hid, hf]
    | ok o =>
      cases o with
      | none => simpa [hid, hf]
      | some full =>
        by_cases hp : full.isProcessed = true
        · simpa [hid, hf, hp]
        · cases ht : translate_recipe env full with
          | error e => simpa [hid, hf, hp, ht]
          | ok tr =>
            cases hu : update_recipe env st.store slug tr with
            | error e => simpa [hid, hf, hp, ht, hu]
            | ok pr =>
              obtain ⟨success, store1⟩ := pr
              obtain ⟨hb, hstore1⟩ := update_recipe_ok env st.store slug tr success store1 hu
              subst hb
              subst hstore1
              simp only [hid, hf, hp, ht, hu, Bool.false_eq_true, if_false, if_true]
              exact mark_store_isSome env _ slug slug'
                (assocFind_storeSet_isSome st.store slug slug' tr h)

/-- A non-raising fetch returns exactly the store lookup. -/
theorem get_recipe_details_ok (env : Env) (store : Store) (slug : String)
    (h : env.fetchRaises slug = false) :
    get_recipe_details env store slug = .ok (assocFind store slug) := by
  unfold get_recipe_details
  rw [h]
  simp

/-- `mark_recipe_as_processed` marks its slug whenever the fetch does not
raise, the slug is present and the update write goes through. -/
theorem mark_marks (env : Env) (store : Store) (slug : String) (r : Recipe)
    (hraise : env.fetchRaises slug = false)
    (hfind : assocFind store slug = some r)
    (hupd : ∀ q, env.updateOutcome slug q = .ok ()) :
    Marked (mark_recipe_as_processed env store slug).2 slug := by
  unfold mark_recipe_as_processed
  rw [get_recipe_details_ok env store slug hraise, hfind]
  by_cases hp : r.isProcessed = true
  · simp only [hp, if_true]
    exact ⟨r, hfind, hp⟩
  · have hu : update_recipe env store slug (setMarker r) =
        .ok (true, storeSet store slug (setMarker r)) := by
      unfold update_recipe
      rw [hupd (setMarker r)]
    simp only [hp, Bool.false_eq_true, if_false, hu]
    exact ⟨setMarker r, assocFind_storeSet_self store slug (setMarker r),
      isProcessed_setMarker r⟩

/-- Once a slug is marked, `processItem` keeps it marked (the double-check
skips marked recipes, and writes to other slugs do not touch it). -/
theorem processItem_marked (env : Env) (st : BState) (s : Summary) (slug : String)
    (h : Marked st.store slug) : Marked (processItem env st s).store slug := by
  cases hid : s.ident with
  | none =>
    unfold processItem
    simp only [hid]
    exact h
  | some u =>
    by_cases hsu : slug = u
    · subst hsu
      obtain ⟨r, hr, hpr⟩ := h
      have ho : get_recipe_details env st.store slug = .error () ∨
          get_recipe_details env st.store slug = .ok (some r) := by
        unfold get_recipe_details
        by_cases hraise : env.fetchRaises slug = true
        · rw [hraise]
          left
          simp
        · simp only [Bool.not_eq_true] at hraise
          rw [hraise]
          right
          simp [hr]
      unfold processItem
      cases ho with
      | inl he =>
        simp only [hid, he]
        exact ⟨r, hr, hpr⟩
      | inr hk =>
        simp only [hid, hk, hpr, if_true]
        exact ⟨r, hr, hpr⟩
    · have hframe := processItem_store_frame env st s slug
        (fun v hv => by rw [hid] at hv; cases hv; exact hsu)
      obtain ⟨r, hr, hpr⟩ := h
      exact ⟨r, by rw [hframe]; exact hr, hpr⟩

/-- An item whose fetch succeeds on a present unmarked recipe, whose
translation succeeds and whose updates all go through is counted
processed, and ends marked. -/
theorem processItem_success (env : Env) (st : BState) (s : Summary) (slug : String)
    (r : Recipe) (hid : s.ident = some slug)
    (hraise : env.fetchRaises slug = false)
    (hfind : assocFind st.store slug = some r)
    (hpr : r.isProcessed = false)
    (htrans : ∀ c, ∃ c2, env.translateText c = .ok c2)
    (hupd : ∀ q, env.updateOutcome slug q = .ok ()) :
    (processItem env st s).processed = st.processed + 1 ∧
    (processItem env st s).skipped = st.skipped ∧
    (processItem env st s).failed = st.failed ∧
    Marked (processItem env st s).store slug := by
  obtain ⟨c2, hc2⟩ := htrans r.content
  have htr : translate_recipe env r = .ok { r with content := c2 } := by
    unfold translate_recipe
    rw [hc2]
  have hu : update_recipe env st.store slug { r with content := c2 } =
      .ok (true, storeSet st.store slug { r with content := c2 }) := by
    unfold update_recipe
    rw [hupd _]
  unfold processItem
  simp only [hid, get_recipe_details_ok env st.store slug hraise, hfind,
    hpr, Bool.false_eq_true, if_false, htr, hu, if_true]
  refine ⟨trivial, trivial, trivial, ?_⟩
  exact mark_marks env _ slug { r with content := c2 } hraise
    (assocFind_storeSet_self st.store slug _) hupd

/-- An item whose update write raises is counted failed and leaves the
store untouched. -/
theorem processItem_updateFails (env : Env) (st : BState) (s : Summary) (slug : String)
    (r : Recipe) (hid : s.ident = some slug)
    (hraise : env.fetchRaises slug = false)
    (hfind : assocFind st.store slug = some r)
    (hpr : r.isProcessed = false)
    (htrans : ∀ c, ∃ c2, env.translateText c = .ok c2)
    (hupd : ∀ q, env.updateOutcome slug q = .error ()) :
    (processItem env st s).processed = st.processed ∧
    (processItem env st s).skipped = st.skipped ∧
    (processItem env st s).failed = st.failed + 1 ∧
    (processItem env st s).store = st.store := by
  obtain ⟨c2, hc2⟩ := htrans r.content
  have htr : translate_recipe env r = .ok { r with content := c2 } := by
    unfold translate_recipe
    rw [hc2]
  have hu : update_recipe env st.store slug { r with content := c2 } = .error () := by
    unfold update_recipe
    rw [hupd _]
  unfold processItem
  simp only [hid, get_recipe_details_ok env st.store slug hraise, hfind,
    hpr, Bool.false_eq_true, if_false, htr, hu]
  exact ⟨trivial, trivial, trivial, trivial⟩

/-! ## Helper lemmas: folding a batch -/

/-- Folding the item step accumulates onto the starting counters what the
same fold does from a zeroed state over the same store. -/
theorem foldProcess_shift (env : Env) (l : List Summary) :
    ∀ st : BState,
      List.foldl (processItem env) st l =
        ⟨(List.foldl (processItem env) ⟨st.store, 0, 0, 0, [], []⟩ l).store,
         st.processed + (List.foldl (processItem env) ⟨st.store, 0, 0, 0, [], []⟩ l).processed,
         st.skipped + (List.foldl (processItem env) ⟨st.store, 0, 0, 0, [], []⟩ l).skipped,
         st.failed + (List.foldl (processItem env) ⟨st.store, 0, 0, 0, [], []⟩ l).failed,
         st.transCalls ++ (List.foldl (processItem env) ⟨st.store, 0, 0, 0, [], []⟩ l).transCalls,
         st.itemOrder ++ (List.foldl (processItem env) ⟨st.store, 0, 0, 0, [], []⟩ l).itemOrder⟩ := by
  induction l with
  | nil =>
    intro st
    cases st
    simp
  | cons x xs ih =>
    intro st
    rw [List.foldl_cons, List.foldl_cons, ih (processItem env st x),
      processItem_shift env st x,
      ih (processItem env ⟨st.store, 0, 0, 0, [], []⟩ x)]
    simp [Nat.add_assoc, List.append_assoc]

/-- A batch accumulation step is just continuing the item fold. -/
theorem batchStep_eq (env : Env) (acc : BState) (batch : List Summary) :
    batchStep env acc batch = List.foldl (processItem env) acc batch := by
  unfold batchStep process_recipe_batch
  rw [foldProcess_shift env batch acc]

/-- Folding the batch steps over any batch list is folding the item step
over its concatenation. -/
theorem foldBatches_eq (env : Env) (batches : List (List Summary)) :
    ∀ acc : BState,
      List.foldl (batchStep env) acc batches =
        List.foldl (processItem env) acc batches.flatten := by
  induction batches with
  | nil => intro acc; simp
  | cons b bs ih =>
    intro acc
    rw [List.foldl_cons, ih (batchStep env acc b), batchStep_eq,
      List.flatten_cons, List.foldl_append]

/-- Each item of a fold accounts for exactly one counter. -/
theorem foldProcess_counts (env : Env) (l : List Summary) :
    ∀ st : BState,
      (List.foldl (processItem env) st l).processed +
        (List.foldl (processItem env) st l).skipped +
        (List.foldl (processItem env) st l).failed =
      st.processed + st.skipped + st.failed + l.length := by
  induction l with
  | nil => intro st; simp
  | cons x xs ih =>
    intro st
    rw [List.foldl_cons, ih (processItem env st x)]
    have := processItem_counts env st x
    simp only [List.length_cons]
    omega

/-- The fold attempts exactly the items of the list, in order. -/
theorem foldProcess_itemOrder (env : Env) (l : List Summary) :
    ∀ st : BState,
      (List.foldl (processItem env) st l).itemOrder = st.itemOrder ++ l := by
  induction l with
  | nil => intro st; simp
  | cons x xs ih =>
    intro st
    rw [List.foldl_cons, ih (processItem env st x), processItem_itemOrder]
    simp

/-- Marks survive a whole fold. -/
theorem foldProcess_marked (env : Env) (l : List Summary) :
    ∀ (st : BState) (slug : String), Marked st.store slug →
      Marked (List.foldl (processItem env) st l).store slug := by
  induction l with
  | nil => intro st slug h; simpa
  | cons x xs ih =>
    intro st slug h
    rw [List.foldl_cons]
    exact ih (processItem env st x) slug (processItem_marked env st x slug h)

/-- Present keys survive a whole fold. -/
theorem foldProcess_present (env : Env) (l : List Summary) :
    ∀ (st : BState) (slug : String), (assocFind st.store slug).isSome →
      (assocFind (List.foldl (processItem env) st l).store slug).isSome := by
  induction l with
  | nil => intro st slug h; simpa
  | cons x xs ih =>
    intro st slug h
    rw [List.foldl_cons]
    exact ih (processItem env st x) slug (processItem_present env st x slug h)

/-- When the provider and the store writes always succeed and every item
resolves to a present, non-raising slug, the fold leaves every item's slug
marked. -/
theorem foldProcess_marks_all (env : Env)
    (htrans : ∀ c, ∃ c2, env.translateText c = .ok c2)
    (hupd : ∀ slug q, env.updateOutcome slug q = .ok ()) :
    ∀ (l : List Summary) (st : BState),
      (∀ s ∈ l, ∃ slug, s.ident = some slug ∧ env.fetchRaises slug = false ∧
        (assocFind st.store slug).isSome) →
      ∀ s ∈ l, ∀ slug, s.ident = some slug →
        Marked (List.foldl (processItem env) st l).store slug := by
  intro l
  induction l with
  | nil => intro st hall s hs; cases hs
  | cons x xs ih =>
    intro st hall s hs slug hid
    rw [List.foldl_cons]
    rcases List.mem_cons.mp hs with hs | hs
    · subst hs
      obtain ⟨u, hu, hraise, hpres⟩ := hall s (by simp)
      have huslug : u = slug := by
        rw [hid] at hu
        cases hu
        rfl
      subst huslug
      obtain ⟨r, hr⟩ := Option.isSome_iff_exists.mp hpres
      by_cases hpr : r.isProcessed = true
      · exact foldProcess_marked env xs (processItem env st s) u
          (processItem_marked env st s u ⟨r, hr, hpr⟩)
      · have hsucc := processItem_success env st s u r hid hraise hr
          (Bool.not_eq_true _ ▸ hpr) htrans (hupd u)
        exact foldProcess_marked env xs (processItem env st s) u hsucc.2.2.2
    · exact ih (processItem env st x) (fun t ht => by
        obtain ⟨u, hu, hraise, hpres⟩ := hall t (by simp [ht])
        exact ⟨u, hu, hraise, processItem_present env st x u hpres⟩) s hs slug hid

/-! ## Helper lemmas: the batch partition -/

theorem batchesOf_nil (b : Nat) : batchesOf b [] = [] := by
  cases b with
  | zero => rfl
  | succ n => simp [batchesOf, Nat.div_eq_of_lt (Nat.lt_succ_self n)]

theorem batchesOf_length (b : Nat) (l : List Summary) :
    (batchesOf b l).length = (l.length + b - 1) / b := by
  simp [batchesOf]

theorem batchesOf_cons (b : Nat) (hb : 0 < b) (l : List Summary) (hl : l ≠ []) :
    batchesOf b l = l.take b :: batchesOf b (l.drop b) := by
  have hn : 0 < l.length := List.length_pos.mpr hl
  have hq : (l.length + b - 1) / b = ((l.drop b).length + b - 1) / b + 1 := by
    rw [List.length_drop]
    rcases le_or_lt l.length b with hle | hlt
    · have h0 : l.length - b = 0 := Nat.sub_eq_zero_of_le hle
      rw [h0]
      rw [Nat.div_eq_of_lt (show 0 + b - 1 < b by omega)]
      rw [Nat.div_eq_sub_div hb (show b ≤ l.length + b - 1 by omega)]
      rw [Nat.div_eq_of_lt (show l.length + b - 1 - b < b by omega)]
    · have h1 : l.length + b - 1 = (l.length - b + b - 1) + b := by omega
      rw [h1, Nat.add_div_right _ hb]
  unfold batchesOf
  rw [hq, List.range_succ_eq_map]
  simp only [List.map_cons, Nat.zero_mul, List.drop_zero, List.map_map]
  congr 1
  apply List.map_congr_left
  intro i _
  simp only [Function.comp_apply]
  rw [List.drop_drop]
  congr 2
  rw [Nat.succ_mul]
  omega

theorem flatten_batchesOf_aux (b : Nat) (hb : 0 < b) :
    ∀ (n : Nat) (l : List Summary), l.length ≤ n → (batchesOf b l).flatten = l := by
  intro n
  induction n with
  | zero =>
    intro l hl
    have : l = [] := List.eq_nil_of_length_eq_zero (Nat.le_zero.mp hl)
    subst this
    simp [batchesOf_nil]
  | succ n ih =>
    intro l hl
    by_cases hnil : l = []
    · subst hnil
      simp [batchesOf_nil]
    · have hpos : 0 < l.length := List.length_pos.mpr hnil
      rw [batchesOf_cons b hb l hnil, List.flatten_cons,
        ih (l.drop b) (by rw [List.length_drop]; omega)]
      exact List.take_append_drop b l

theorem flatten_batchesOf (b : Nat) (hb : 0 < b) (l : List Summary) :
    (batchesOf b l).flatten = l :=
  flatten_batchesOf_aux b hb l.length l le_rfl

theorem batchesOf_full_aux (b : Nat) (hb : 0 < b) :
    ∀ (n : Nat) (l : List Summary), l.length ≤ n →
      ∀ i, i + 1 < (batchesOf b l).length → ((batchesOf b l).getD i []).length = b := by
  intro n
  induction n with
  | zero =>
    intro l hl i hi
    have : l = [] := List.eq_nil_of_length_eq_zero (Nat.le_zero.mp hl)
    subst this
    rw [batchesOf_nil] at hi
    simp at hi
  | succ n ih =>
    intro l hl i hi
    by_cases hnil : l = []
    · subst hnil
      rw [batchesOf_nil] at hi
      simp at hi
    · have hpos : 0 < l.length := List.length_pos.mpr hnil
      rw [batchesOf_cons b hb l hnil] at hi ⊢
      cases i with
      | zero =>
        simp only [List.getD_cons_zero, List.length_take]
        have htail : batchesOf b (l.drop b) ≠ [] := by
          intro hflat
          rw [List.length_cons, hflat] at hi
          simp at hi
        have hdrop : l.drop b ≠ [] := by
          intro hflat
          rw [hflat, batchesOf_nil] at htail
          exact htail rfl
        have hblt : b < l.length := by
          by_contra hge
          exact hdrop (List.drop_eq_nil_of_le (by omega))
        omega
      | succ j =>
        simp only [List.getD_cons_succ]
        apply ih (l.drop b)
        · rw [List.length_drop]
          omega
        · rw [List.length_cons] at hi
          omega

/-- The batch count is the ceiling of `length / b`:
`length ≤ count * b < length + b`. -/
theorem batchesOf_count_ceil (b : Nat) (hb : 0 < b) (l : List Summary) :
    l.length ≤ (batchesOf b l).length * b ∧
      (batchesOf b l).length * b < l.length + b := by
  rw [batchesOf_length]
  rcases Nat.eq_zero_or_pos l.length with h0 | hpos
  · rw [h0]
    rw [Nat.div_eq_of_lt (show 0 + b - 1 < b by omega)]
    omega
  · have h1 : l.length + b - 1 = (l.length - 1) + b := by omega
    rw [h1, Nat.add_div_right _ hb]
    have hdm := Nat.div_add_mod (l.length - 1) b
    have hmod : (l.length - 1) % b < b := Nat.mod_lt _ hb
    rw [Nat.add_mul, Nat.one_mul, Nat.mul_comm]
    generalize hgen : b * ((l.length - 1) / b) = t at hdm
    omega

/-! ## Helper lemmas: the eligibility filter -/

/-- Every listed candidate is accounted for by the filter: kept, skipped
as already processed, or dropped. -/
theorem filterRecipes_counts (env : Env) (store : Store) :
    ∀ (l : List Summary) (res : List Summary × Nat × Nat),
      filterRecipes env store l = .ok res →
      res.1.length + res.2.1 + res.2.2 = l.length := by
  intro l
  induction l with
  | nil =>
    intro res h
    unfold filterRecipes at h
    cases h
    simp
  | cons s rest ih =>
    intro res h
    unfold filterRecipes at h
    cases hid : s.ident with
    | none =>
      simp only [hid] at h
      cases hrec : filterRecipes env store rest with
      | error e => simp [hrec] at h
      | ok t =>
        obtain ⟨u1, a1, d1⟩ := t
        simp only [hrec] at h
        cases h
        have := ih (u1, a1, d1) hrec
        simp only [List.length_cons]
        simp at this ⊢
        omega
    | some slug =>
      simp only [hid] at h
      cases hf : get_recipe_details env store slug with
      | error e => simp [hf] at h
      | ok fr =>
        simp only [hf] at h
        cases hrec : filterRecipes env store rest with
        | error e => simp [hrec] at h
        | ok t =>
          obtain ⟨u1, a1, d1⟩ := t
          have hrest := ih (u1, a1, d1) hrec
          simp at hrest
          cases fr with
          | none =>
            simp only [hrec] at h
            cases h
            simp only [List.length_cons]
            omega
          | some full =>
            simp only [hrec] at h
            by_cases hp : full.isProcessed = true
            · rw [if_pos hp] at h
              cases h
              simp only [List.length_cons]
              omega
            · rw [if_neg hp] at h
              cases h
              simp only [List.length_cons, List.length_cons]
              omega

/-- When every listed candidate resolves to a marked recipe in the store,
the filter keeps nothing, counts everything as an already-processed skip,
and drops nothing. -/
theorem filterRecipes_all_marked (env : Env) (store : Store) :
    ∀ l : List Summary,
      (∀ s ∈ l, ∃ slug, s.ident = some slug ∧ env.fetchRaises slug = false ∧
        Marked store slug) →
      filterRecipes env store l = .ok ([], l.length, 0) := by
  intro l
  induction l with
  | nil => intro h; rfl
  | cons s rest ih =>
    intro h
    obtain ⟨slug, hid, hraise, r, hr, hpr⟩ := h s (by simp)
    unfold filterRecipes
    simp only [hid, get_recipe_details_ok env store slug hraise, hr,
      ih (fun t ht => h t (by simp [ht])), hpr]
    simp

/-- When every listed candidate resolves to a present unmarked recipe, the
filter keeps everything in order. -/
theorem filterRecipes_none_marked (env : Env) (store : Store) :
    ∀ l : List Summary,
      (∀ s ∈ l, ∃ slug, s.ident = some slug ∧ env.fetchRaises slug = false ∧
        ∃ r, assocFind store slug = some r ∧ r.isProcessed = false) →
      filterRecipes env store l = .ok (l, 0, 0) := by
  intro l
  induction l with
  | nil => intro h; rfl
  | cons s rest ih =>
    intro h
    obtain ⟨slug, hid, hraise, r, hr, hpr⟩ := h s (by simp)
    unfold filterRecipes
    simp only [hid, get_recipe_details_ok env store slug hraise, hr,
      ih (fun t ht => h t (by simp [ht])), hpr]
    simp

/-- When every listed candidate has a truthy identifier whose detail fetch
does not raise, the filter succeeds, drops nothing, and every candidate is
either kept or was already marked. -/
theorem filterRecipes_healthy (env : Env) (store : Store) :
    ∀ l : List Summary,
      (∀ s ∈ l, ∃ slug, s.ident = some slug ∧ env.fetchRaises slug = false ∧
        (assocFind store slug).isSome) →
      ∃ u a, filterRecipes env store l = .ok (u, a, 0) ∧
        (∀ s ∈ u, s ∈ l) ∧
        (∀ s ∈ l, s ∈ u ∨ ∀ slug, s.ident = some slug → Marked store slug) := by
  intro l
  induction l with
  | nil => exact fun _ => ⟨[], 0, rfl, by simp, by simp⟩
  | cons s rest ih =>
    intro h
    obtain ⟨slug, hid, hraise, hpres⟩ := h s (by simp)
    obtain ⟨r, hr⟩ := Option.isSome_iff_exists.mp hpres
    obtain ⟨u, a, hrec, hsub, hcover⟩ := ih (fun t ht => h t (by simp [ht]))
    unfold filterRecipes
    simp only [hid, get_recipe_details_ok env store slug hraise, hr, hrec]
    by_cases hp : r.isProcessed = true
    · refine ⟨u, a + 1, by simp [hp], fun t ht => by simp [hsub t ht], ?_⟩
      intro t ht
      rcases List.mem_cons.mp ht with ht | ht
      · subst ht
        right
        intro slug2 hid2
        rw [hid] at hid2
        cases hid2
        exact ⟨r, hr, hp⟩
      · rcases hcover t ht with hc | hc
        · exact Or.inl hc
        · exact Or.inr hc
    · refine ⟨s :: u, a, by simp [hp], ?_, ?_⟩
      · intro t ht
        rcases List.mem_cons.mp ht with ht | ht
        · simp [ht]
        · simp [hsub t ht]
      · intro t ht
        rcases List.mem_cons.mp ht with ht | ht
        · subst ht
          exact Or.inl (by simp)
        · rcases hcover t ht with hc | hc
          · exact Or.inl (by simp [hc])
          · exact Or.inr hc

/-- Folding over distinct, eligible, present items when every update to
`slugK` raises and every other update succeeds: exactly the `slugK` item
fails, every other item is processed, nothing is skipped. -/
theorem foldProcess_one_fails (env : Env) (slugK : String)
    (htrans : ∀ c, ∃ c2, env.translateText c = .ok c2)
    (hupdK : ∀ q, env.updateOutcome slugK q = .error ())
    (hupdO : ∀ slug q, slug ≠ slugK → env.updateOutcome slug q = .ok ()) :
    ∀ (l : List Summary) (st : BState),
      (∀ s ∈ l, ∃ slug, s.ident = some slug ∧ env.fetchRaises slug = false ∧
        ∃ r, assocFind st.store slug = some r ∧ r.isProcessed = false) →
      (l.map Summary.ident).Nodup →
      (if some slugK ∈ l.map Summary.ident then
        (List.foldl (processItem env) st l).processed = st.processed + (l.length - 1) ∧
        (List.foldl (processItem env) st l).failed = st.failed + 1
      else
        (List.foldl (processItem env) st l).processed = st.processed + l.length ∧
        (List.foldl (processItem env) st l).failed = st.failed) ∧
      (List.foldl (processItem env) st l).skipped = st.skipped := by
  intro l
  induction l with
  | nil =>
    intro st hall hnd
    simp
  | cons x xs ih =>
    intro st hall hnd
    obtain ⟨slug, hid, hraise, r, hr, hpr⟩ := hall x (by simp)
    rw [List.map_cons, List.nodup_cons] at hnd
    obtain ⟨hnotmem, hnd2⟩ := hnd
    have htail : ∀ s ∈ xs, ∃ slug2, s.ident = some slug2 ∧
        env.fetchRaises slug2 = false ∧
        ∃ r2, assocFind (processItem env st x).store slug2 = some r2 ∧
          r2.isProcessed = false := by
      intro s hs
      obtain ⟨slug2, hid2, hraise2, r2, hr2, hpr2⟩ := hall s (by simp [hs])
      refine ⟨slug2, hid2, hraise2, r2, ?_, hpr2⟩
      rw [processItem_store_frame env st x slug2 ?_]
      · exact hr2
      · intro u hu
        rw [hid] at hu
        cases hu
        intro heq
        subst heq
        apply hnotmem
        have : s.ident ∈ xs.map Summary.ident := List.mem_map_of_mem Summary.ident hs
        rw [hid2] at this
        rw [hid]
        exact this
    rw [List.foldl_cons]
    have hih := ih (processItem env st x) htail hnd2
    by_cases hK : slug = slugK
    · subst hK
      obtain ⟨hP, hS, hF, hStore⟩ :=
        processItem_updateFails env st x slug r hid hraise hr hpr htrans hupdK
      have hmem_head : some slug ∈ (x :: xs).map Summary.ident := by
        simp [hid]
      have hnotmem_tail : some slug ∉ xs.map Summary.ident := by
        rw [← hid]
        exact hnotmem
      rw [if_pos hmem_head]
      rw [if_neg hnotmem_tail] at hih
      obtain ⟨⟨hihP, hihF⟩, hihS⟩ := hih
      refine ⟨⟨?_, ?_⟩, ?_⟩
      · rw [hihP, hP]
        simp only [List.length_cons]
        omega
      · rw [hihF, hF]
      · rw [hihS, hS]
    · have hneq : x.ident ≠ some slugK := by
        rw [hid]
        intro hc
        cases hc
        exact hK rfl
      obtain ⟨hP, hS, hF, _⟩ :=
        processItem_success env st x slug r hid hraise hr hpr htrans
          (fun q => hupdO slug q hK)
      by_cases hmem : some slugK ∈ xs.map Summary.ident
      · have hmem_head : some slugK ∈ (x :: xs).map Summary.ident := by
          simp [hmem]
        rw [if_pos hmem_head]
        rw [if_pos hmem] at hih
        obtain ⟨⟨hihP, hihF⟩, hihS⟩ := hih
        have hxs_pos : 0 < xs.length := by
          rcases List.mem_map.mp hmem with ⟨t, ht, _⟩
          exact List.length_pos.mpr (List.ne_nil_of_mem ht)
        refine ⟨⟨?_, ?_⟩, ?_⟩
        · rw [hihP, hP]
          simp only [List.length_cons]
          omega
        · rw [hihF, hF]
        · rw [hihS, hS]
      · have hmem_head : some slugK ∉ (x :: xs).map Summary.ident := by
          simp only [List.map_cons, List.mem_cons]
          rintro (hc | hc)
          · exact hneq hc.symm
          · exact hmem hc
        rw [if_neg hmem_head]
        rw [if_neg hmem] at hih
        obtain ⟨⟨hihP, hihF⟩, hihS⟩ := hih
        refine ⟨⟨?_, ?_⟩, ?_⟩
        · rw [hihP, hP]
          simp only [List.length_cons]
          omega
        · rw [hihF, hF]
        · rw [hihS, hS]

/-! ## Helper lemmas: the three return paths of `process_all_recipes` -/

theorem process_all_empty_listing (env : Env) (settings : ProcSettings) (store : Store)
    (h : env.listing = []) :
    process_all_recipes env settings store =
      .ok (⟨⟨0, 0, 0, 0⟩, 0, 0, 0, 0, 0, [], []⟩, store) := by
  unfold process_all_recipes
  rw [if_pos (by simp [h])]

theorem process_all_no_eligible (env : Env) (settings : ProcSettings) (store : Store)
    (a d : Nat) (hne : env.listing ≠ [])
    (hf : filterRecipes env store env.listing = .ok ([], a, d)) :
    process_all_recipes env settings store =
      .ok (⟨⟨env.listing.length, 0, env.listing.length, 0⟩, a, d, 0, 0, 0, [], []⟩,
           store) := by
  unfold process_all_recipes
  rw [if_neg (by simp [hne])]
  simp only [hf]
  simp

theorem process_all_batch_path (env : Env) (settings : ProcSettings) (store : Store)
    (unproc : List Summary) (a d : Nat)
    (hne : env.listing ≠ [])
    (hf : filterRecipes env store env.listing = .ok (unproc, a, d))
    (hu : unproc ≠ []) :
    process_all_recipes env settings store =
      .ok (⟨⟨unproc.length,
             (List.foldl (processItem env) ⟨store, 0, 0, 0, [], []⟩
               (batchesOf settings.batch_size unproc).flatten).processed,
             (List.foldl (processItem env) ⟨store, 0, 0, 0, [], []⟩
               (batchesOf settings.batch_size unproc).flatten).skipped,
             (List.foldl (processItem env) ⟨store, 0, 0, 0, [], []⟩
               (batchesOf settings.batch_size unproc).flatten).failed⟩,
            a, d,
            (List.foldl (processItem env) ⟨store, 0, 0, 0, [], []⟩
              (batchesOf settings.batch_size unproc).flatten).processed,
            (List.foldl (processItem env) ⟨store, 0, 0, 0, [], []⟩
              (batchesOf settings.batch_size unproc).flatten).skipped,
            (List.foldl (processItem env) ⟨store, 0, 0, 0, [], []⟩
              (batchesOf settings.batch_size unproc).flatten).failed,
            (List.foldl (processItem env) ⟨store, 0, 0, 0, [], []⟩
              (batchesOf settings.batch_size unproc).flatten).transCalls,
            (List.foldl (processItem env) ⟨store, 0, 0, 0, [], []⟩
              (batchesOf settings.batch_size unproc).flatten).itemOrder⟩,
           (List.foldl (processItem env) ⟨store, 0, 0, 0, [], []⟩
             (batchesOf settings.batch_size unproc).flatten).store) := by
  unfold process_all_recipes
  rw [if_neg (by simp [hne])]
  simp only [hf]
  rw [if_neg (by simp [hu])]
  rw [foldBatches_eq]

/-! ## The two marker predicates agree

`Recipe.isProcessed` (the orchestrator model's string-extras restriction)
computes exactly what the dynamically-typed `is_recipe_processed` returns
on the corresponding Python dictionary. -/

theorem pyLookup_map_pstr (es : List (String × String)) (key : String) :
    pyLookup (es.map (fun p => (p.1, PyVal.pstr p.2))) key
      = (extrasFind es key).map PyVal.pstr := by
  induction es with
  | nil => rfl
  | cons p rest ih =>
    by_cases h : p.1 = key
    · simp [pyLookup, extrasFind, h]
    · simp [pyLookup, extrasFind, h, ih]

theorem isProcessed_agrees (r : Recipe) :
    is_recipe_processed
      (.pdict [("extras", .pdict (r.extras.map (fun p => (p.1, PyVal.pstr p.2))))])
      = .ok r.isProcessed := by
  simp only [is_recipe_processed, pyDictGet, pyLowerVal, pyLookup,
    Option.getD_some, Option.getD_none, Bind.bind, Except.bind, pure, Except.pure,
    if_true]
  rw [pyLookup_map_pstr]
  cases hfind : extrasFind r.extras "translated" with
  | none =>
    simp [Recipe.isProcessed, hfind]
    exact ⟨by decide, by decide⟩
  | some v => simp [Recipe.isProcessed, hfind]

/-! ## Claim C1 — the run-level reconciliation invariant -/

/-- C1 (amended): for every completed run, the accounting levels — the
filter-stage "already processed" skips plus the batch-stage
`processed`/`skipped`/`failed` counters — together with the candidates the
filter dropped silently (missing slug/id, or a detail fetch returning
`None`) add up to the number of recipes observed in the initial listing;
the batch-stage `processed` and `failed` counters are exactly the returned
statistics' counters.  Without the silent-drop term the sum falls short by
one per dropped candidate (`c1_reconciliation_counterexample`). -/
theorem c1_reconciliation (env : Env) (settings : ProcSettings) (store : Store)
    (res : RunResult) (store2 : Store)
    (hb : 0 < settings.batch_size)
    (hr : process_all_recipes env settings store = .ok (res, store2)) :
    res.filterSkips + (res.batchProcessed + res.batchSkipped + res.batchFailed) +
        res.filterDrops = env.listing.length ∧
    res.stats.processed = res.batchProcessed ∧
    res.stats.failed = res.batchFailed := by
  by_cases hemp : env.listing = []
  · rw [process_all_empty_listing env settings store hemp] at hr
    cases hr
    simp [hemp]
  · unfold process_all_recipes at hr
    rw [if_neg (by simp [hemp])] at hr
    cases hfil : filterRecipes env store env.listing with
    | error e => rw [hfil] at hr; cases hr
    | ok t =>
      obtain ⟨unproc, a, d⟩ := t
      simp only [hfil] at hr
      have hc := filterRecipes_counts env store env.listing (unproc, a, d) hfil
      simp only at hc
      by_cases huemp : unproc = []
      · subst huemp
        rw [if_pos (show ([] : List Summary).isEmpty = true from rfl)] at hr
        cases hr
        simp only [List.length_nil] at hc
        refine ⟨?_, rfl, rfl⟩
        simp only []
        omega
      · rw [if_neg (by simp [huemp])] at hr
        rw [foldBatches_eq] at hr
        cases hr
        have hflat : (batchesOf settings.batch_size unproc).flatten = unproc :=
          flatten_batchesOf settings.batch_size hb unproc
        have hsum := foldProcess_counts env
          ((batchesOf settings.batch_size unproc).flatten) ⟨store, 0, 0, 0, [], []⟩
        rw [hflat] at hsum
        simp only at hsum
        refine ⟨?_, rfl, rfl⟩
        simp only [hflat]
        omega

/-- C1 counterexample: a listing of two recipes where the first one's
detail fetch returns `None` during filtering.  The filter-stage
already-processed skips (0) plus the batch-stage counters (1 + 0 + 0) sum
to 1, not to the 2 recipes of the initial listing: the silently dropped
candidate is absent from every accounting level. -/
theorem c1_reconciliation_counterexample :
    process_all_recipes envDrop {} storeDrop = .ok (resDrop, storeDropFinal) ∧
    resDrop.filterSkips +
        (resDrop.batchProcessed + resDrop.batchSkipped + resDrop.batchFailed) = 1 ∧
    envDrop.listing.length = 2 := by
  refine ⟨?_, by decide, by decide⟩
  decide

/-- C1 witness: the amended reconciliation at the dropped-candidate
scenario (the sum reaches the listing length once the silent drop is
counted). -/
theorem c1_reconciliation_witness :
    resDrop.filterSkips + (resDrop.batchProcessed + resDrop.batchSkipped +
        resDrop.batchFailed) + resDrop.filterDrops = envDrop.listing.length ∧
    resDrop.stats.processed = resDrop.batchProcessed ∧
    resDrop.stats.failed = resDrop.batchFailed :=
  c1_reconciliation envDrop {} storeDrop resDrop storeDropFinal (by decide) (by decide)

/-! ## Claim C2 — idempotence across two runs -/

/-- C2: running `process_all_recipes` twice against the same store with no
external mutation in between, when every listed recipe resolves (truthy
identifier, non-raising fetch, present in the store) and translation and
store writes succeed — so in particular every marker write of the first
run succeeds — makes the second run translate nothing: it invokes the
translator on no recipe and returns `processed = 0`. -/
theorem c2_second_run_processes_nothing (env : Env) (settings : ProcSettings)
    (store : Store)
    (hb : 0 < settings.batch_size)
    (hlist : ∀ s ∈ env.listing, ∃ slug, s.ident = some slug ∧
      env.fetchRaises slug = false ∧ (assocFind store slug).isSome)
    (htrans : ∀ c, ∃ c2, env.translateText c = .ok c2)
    (hupd : ∀ slug q, env.updateOutcome slug q = .ok ()) :
    ∃ res1 store1 res2 store2,
      process_all_recipes env settings store = .ok (res1, store1) ∧
      process_all_recipes env settings store1 = .ok (res2, store2) ∧
      res2.stats.processed = 0 ∧ res2.batchProcessed = 0 ∧ res2.transCalls = [] := by
  by_cases hemp : env.listing = []
  · exact ⟨_, _, _, _, process_all_empty_listing env settings store hemp,
      process_all_empty_listing env settings store hemp, rfl, rfl, rfl⟩
  · obtain ⟨u, a, hfil, hsub, hcover⟩ := filterRecipes_healthy env store env.listing hlist
    by_cases huemp : u = []
    · subst huemp
      have h1 := process_all_no_eligible env settings store a 0 hemp hfil
      have hmark : ∀ s ∈ env.listing, ∃ slug, s.ident = some slug ∧
          env.fetchRaises slug = false ∧ Marked store slug := by
        intro s hs
        obtain ⟨slug, hid, hraise, _⟩ := hlist s hs
        rcases hcover s hs with hin | hm
        · exact absurd hin (List.not_mem_nil s)
        · exact ⟨slug, hid, hraise, hm slug hid⟩
      have hfil2 := filterRecipes_all_marked env store env.listing hmark
      have h2 := process_all_no_eligible env settings store env.listing.length 0 hemp hfil2
      exact ⟨_, _, _, _, h1, h2, rfl, rfl, rfl⟩
    · have h1 := process_all_batch_path env settings store u a 0 hemp hfil huemp
      have hflat : (batchesOf settings.batch_size u).flatten = u :=
        flatten_batchesOf settings.batch_size hb u
      have hmark1 : ∀ s ∈ env.listing, ∀ slug, s.ident = some slug →
          Marked (List.foldl (processItem env) ⟨store, 0, 0, 0, [], []⟩
            (batchesOf settings.batch_size u).flatten).store slug := by
        intro s hs slug hid
        rw [hflat]
        rcases hcover s hs with hin | hm
        · exact foldProcess_marks_all env htrans hupd u ⟨store, 0, 0, 0, [], []⟩
            (fun t ht => hlist t (hsub t ht)) s hin slug hid
        · exact foldProcess_marked env u ⟨store, 0, 0, 0, [], []⟩ slug (hm slug hid)
      have hall2 : ∀ s ∈ env.listing, ∃ slug, s.ident = some slug ∧
          env.fetchRaises slug = false ∧
          Marked (List.foldl (processItem env) ⟨store, 0, 0, 0, [], []⟩
            (batchesOf settings.batch_size u).flatten).store slug := by
        intro s hs
        obtain ⟨slug, hid, hraise, _⟩ := hlist s hs
        exact ⟨slug, hid, hraise, hmark1 s hs slug hid⟩
      have hfil2 := filterRecipes_all_marked env _ env.listing hall2
      have h2 := process_all_no_eligible env settings _ env.listing.length 0 hemp hfil2
      exact ⟨_, _, _, _, h1, h2, rfl, rfl, rfl⟩

/-- C2 witness: two listed recipes, one already marked, a healthy store
and provider: after the first run the second run translates nothing. -/
theorem c2_second_run_witness :
    ∃ res1 store1 res2 store2,
      process_all_recipes envTwo {} storeTwo = .ok (res1, store1) ∧
      process_all_recipes envTwo {} store1 = .ok (res2, store2) ∧
      res2.stats.processed = 0 ∧ res2.batchProcessed = 0 ∧ res2.transCalls = [] := by
  refine c2_second_run_processes_nothing envTwo {} storeTwo (by decide) ?_ ?_ ?_
  · intro s hs
    have hs2 : s ∈ [sumA, sumB] := hs
    cases hs2 with
    | head => exact ⟨"a", by decide, rfl, by decide⟩
    | tail _ h2 =>
      cases h2 with
      | head => exact ⟨"b", by decide, rfl, by decide⟩
      | tail _ h3 => cases h3
  · exact fun c => ⟨c ++ "!", rfl⟩
  · exact fun slug q => rfl

/-! ## Claim C3 — partial-failure isolation -/

/-- C3: with `N` eligible, distinct, resolvable recipes of which exactly
one (`slugK`) has its `update_recipe` call raise while everything else
succeeds, the run completes without raising (`Except.ok`), with
`failed = 1 ≥ 1` and `processed = N - 1`: the one bad recipe aborts
neither its batch nor the run. -/
theorem c3_one_bad_item (env : Env) (settings : ProcSettings) (store : Store)
    (slugK : String)
    (hb : 0 < settings.batch_size)
    (hne : env.listing ≠ [])
    (hlist : ∀ s ∈ env.listing, ∃ slug, s.ident = some slug ∧
      env.fetchRaises slug = false ∧ ∃ r, assocFind store slug = some r ∧
        r.isProcessed = false)
    (hnd : (env.listing.map Summary.ident).Nodup)
    (hkmem : some slugK ∈ env.listing.map Summary.ident)
    (htrans : ∀ c, ∃ c2, env.translateText c = .ok c2)
    (hupdK : ∀ q, env.updateOutcome slugK q = .error ())
    (hupdO : ∀ slug q, slug ≠ slugK → env.updateOutcome slug q = .ok ()) :
    ∃ res store2,
      process_all_recipes env settings store = .ok (res, store2) ∧
      res.stats.failed = 1 ∧ 1 ≤ res.stats.failed ∧
      res.stats.processed = env.listing.length - 1 ∧
      res.stats.skipped = 0 ∧
      res.stats.total_recipes = env.listing.length := by
  have hfil := filterRecipes_none_marked env store env.listing hlist
  have hpath := process_all_batch_path env settings store env.listing 0 0 hne hfil hne
  have hflat : (batchesOf settings.batch_size env.listing).flatten = env.listing :=
    flatten_batchesOf settings.batch_size hb env.listing
  have hfold := foldProcess_one_fails env slugK htrans hupdK hupdO env.listing
    ⟨store, 0, 0, 0, [], []⟩ hlist hnd
  rw [if_pos hkmem] at hfold
  obtain ⟨⟨hP, hF⟩, hS⟩ := hfold
  refine ⟨_, _, hpath, ?_, ?_, ?_, ?_, rfl⟩
  · simp only [hflat]
    rw [hF]
  · simp only [hflat]
    rw [hF]
  · simp only [hflat]
    rw [hP]
    simp
  · simp only [hflat]
    rw [hS]

/-- C3 witness: three eligible recipes with `b`'s update raising —
the run returns `ok` with `failed = 1`, `processed = 2`. -/
theorem c3_one_bad_item_witness :
    ∃ res store2,
      process_all_recipes envOneBad { batch_size := 2 } storeThree = .ok (res, store2) ∧
      res.stats.failed = 1 ∧ 1 ≤ res.stats.failed ∧
      res.stats.processed = envOneBad.listing.length - 1 ∧
      res.stats.skipped = 0 ∧
      res.stats.total_recipes = envOneBad.listing.length := by
  refine c3_one_bad_item envOneBad { batch_size := 2 } storeThree "b"
    (by decide) (by decide) ?_ (by decide) (by decide) ?_ ?_ ?_
  · intro s hs
    have hs2 : s ∈ [sumA, sumB, sumC] := hs
    cases hs2 with
    | head => exact ⟨"a", by decide, rfl, ⟨"pa", []⟩, by decide, by decide⟩
    | tail _ h2 =>
      cases h2 with
      | head => exact ⟨"b", by decide, rfl, ⟨"pb", []⟩, by decide, by decide⟩
      | tail _ h3 =>
        cases h3 with
        | head => exact ⟨"c", by decide, rfl, ⟨"pc", []⟩, by decide, by decide⟩
        | tail _ h4 => cases h4
  · exact fun c => ⟨c, rfl⟩
  · exact fun q => rfl
  · intro slug q h
    simp only [envOneBad]
    rw [if_neg h]

/-! ## Claim C4 — dry-run truncation (code bug) -/

/-- C4 evidence: `process_all_recipes` ignores the dry-run settings
entirely.  With `dry_run = true`, `dry_run_limit = 3` and five unprocessed
recipes, the run reports `total_recipes = 5` and `processed = 5`, invoking
the translator five times (the repository's own test
`test_dry_run.py::test_dry_run_limits_recipes` asserts 3 and 3 here, and
`main.py` returns before ever calling `process_all_recipes` when
`--dry-run` is passed). -/
theorem c4_dry_run_not_implemented :
    ((process_all_recipes envFive settingsDryRun storeFive).toOption.map
      (fun p => (p.1.stats.total_recipes, p.1.stats.processed, p.1.transCalls.length)))
      = some (5, 5, 5) ∧
    settingsDryRun.dry_run = true ∧ settingsDryRun.dry_run_limit = 3 := by
  refine ⟨?_, rfl, rfl⟩
  decide

/-! ## Claim C6 — batch partition correctness -/

/-- C6: for eligible set `E` and `batch_size = B > 0` the run partitions
`E` into exactly `⌈|E| / B⌉` consecutive batches (`(|E| + B - 1) / B`,
equivalently the unique `k` with `|E| ≤ k·B < |E| + B`); every batch
except possibly the last has exactly `B` recipes; concatenating the
batches in order gives back the eligible list; and the run attempts the
recipes in exactly that order. -/
theorem c6_batch_partition (env : Env) (settings : ProcSettings) (store : Store)
    (unproc : List Summary) (a d : Nat) (res : RunResult) (store2 : Store)
    (hb : 0 < settings.batch_size)
    (hf : filterRecipes env store env.listing = .ok (unproc, a, d))
    (hne : unproc ≠ [])
    (hr : process_all_recipes env settings store = .ok (res, store2)) :
    (batchesOf settings.batch_size unproc).length
        = (unproc.length + settings.batch_size - 1) / settings.batch_size ∧
    unproc.length ≤ (batchesOf settings.batch_size unproc).length * settings.batch_size ∧
    (batchesOf settings.batch_size unproc).length * settings.batch_size
        < unproc.length + settings.batch_size ∧
    (∀ i, i + 1 < (batchesOf settings.batch_size unproc).length →
      ((batchesOf settings.batch_size unproc).getD i []).length = settings.batch_size) ∧
    (batchesOf settings.batch_size unproc).flatten = unproc ∧
    res.itemOrder = unproc := by
  have hlistne : env.listing ≠ [] := by
    intro h
    rw [h] at hf
    unfold filterRecipes at hf
    cases hf
    exact hne rfl
  have hceil := batchesOf_count_ceil settings.batch_size hb unproc
  have hpath := process_all_batch_path env settings store unproc a d hlistne hf hne
  rw [hpath] at hr
  cases hr
  refine ⟨batchesOf_length _ _, hceil.1, hceil.2,
    fun i hi => batchesOf_full_aux settings.batch_size hb unproc.length unproc le_rfl i hi,
    flatten_batchesOf settings.batch_size hb unproc, ?_⟩
  simp only []
  rw [foldProcess_itemOrder]
  simp [flatten_batchesOf settings.batch_size hb unproc]

/-- C6 witness: three eligible recipes with `batch_size = 2` give two
batches, concatenating back to the eligible list, which is also the
processing order. -/
theorem c6_batch_partition_witness :
    (batchesOf 2 [sumA, sumB, sumC]).length = 2 ∧
    (batchesOf 2 [sumA, sumB, sumC]).flatten = [sumA, sumB, sumC] ∧
    resThree.itemOrder = [sumA, sumB, sumC] := by
  have h := c6_batch_partition envThree { batch_size := 2 } storeThree
    [sumA, sumB, sumC] 0 0 resThree storeThreeFinal (by decide) (by decide)
    (by decide) (by decide)
  exact ⟨h.1.trans (by decide), h.2.2.2.2.1, h.2.2.2.2.2⟩

/-! ## Claim C9 — a mark-processed failure never fails the item -/

/-- C9: an item whose content update succeeds but whose
`mark_recipe_as_processed` call returns `False` (here because the marker
write raises) is still counted `processed` in the batch path — `failed`
is untouched — and `process_single_recipe` still returns `True`. -/
theorem c9_mark_failure_not_counted (env : Env) (st : BState) (s : Summary)
    (slug : String) (r : Recipe) (c2 : String)
    (hid : s.ident = some slug)
    (hraise : env.fetchRaises slug = false)
    (hfind : assocFind st.store slug = some r)
    (hpr : r.isProcessed = false)
    (htrans : env.translateText r.content = .ok c2)
    (hupdOk : env.updateOutcome slug { content := c2, extras := r.extras } = .ok ())
    (hmarkFails :
      env.updateOutcome slug (setMarker { content := c2, extras := r.extras }) = .error ()) :
    (mark_recipe_as_processed env
        (storeSet st.store slug { content := c2, extras := r.extras }) slug).1 = false ∧
    (processItem env st s).processed = st.processed + 1 ∧
    (processItem env st s).failed = st.failed ∧
    (processItem env st s).skipped = st.skipped ∧
    (process_single_recipe env st.store slug).1 = true := by
  have htr : translate_recipe env r = .ok { content := c2, extras := r.extras } := by
    unfold translate_recipe
    rw [htrans]
  have hu : update_recipe env st.store slug { content := c2, extras := r.extras } =
      .ok (true, storeSet st.store slug { content := c2, extras := r.extras }) := by
    unfold update_recipe
    rw [hupdOk]
  have hprc : ({ content := c2, extras := r.extras } : Recipe).isProcessed = false :=
    (isProcessed_extras_eq r { content := c2, extras := r.extras } rfl).trans hpr
  have hmark : mark_recipe_as_processed env
      (storeSet st.store slug { content := c2, extras := r.extras }) slug =
      (false, storeSet st.store slug { content := c2, extras := r.extras }) := by
    unfold mark_recipe_as_processed
    rw [get_recipe_details_ok env _ slug hraise, assocFind_storeSet_self]
    simp only [hprc, Bool.false_eq_true, if_false]
    unfold update_recipe
    rw [hmarkFails]
  refine ⟨by rw [hmark], ?_, ?_, ?_, ?_⟩
  · unfold processItem
    simp only [hid, get_recipe_details_ok env st.store slug hraise, hfind, hpr,
      Bool.false_eq_true, if_false, htr, hu, if_true]
  · unfold processItem
    simp only [hid, get_recipe_details_ok env st.store slug hraise, hfind, hpr,
      Bool.false_eq_true, if_false, htr, hu, if_true]
  · unfold processItem
    simp only [hid, get_recipe_details_ok env st.store slug hraise, hfind, hpr,
      Bool.false_eq_true, if_false, htr, hu, if_true]
  · unfold process_single_recipe
    simp only [get_recipe_details_ok env st.store slug hraise, hfind, hpr,
      Bool.false_eq_true, if_false, htr, hu, if_true]

/-- C9 witness: the one-recipe store whose marker write raises — the item
is processed, nothing failed, the single-recipe path returns `True`, and
the mark call itself returned `False`. -/
theorem c9_mark_failure_witness :
    (mark_recipe_as_processed envMarkFails
        (storeSet storeOne "a" ⟨"pa", []⟩) "a").1 = false ∧
    (processItem envMarkFails ⟨storeOne, 0, 0, 0, [], []⟩ sumA).processed = 0 + 1 ∧
    (processItem envMarkFails ⟨storeOne, 0, 0, 0, [], []⟩ sumA).failed = 0 ∧
    (processItem envMarkFails ⟨storeOne, 0, 0, 0, [], []⟩ sumA).skipped = 0 ∧
    (process_single_recipe envMarkFails storeOne "a").1 = true :=
  c9_mark_failure_not_counted envMarkFails ⟨storeOne, 0, 0, 0, [], []⟩ sumA "a"
    ⟨"pa", []⟩ "pa" (by decide) rfl (by decide) (by decide) rfl (by decide) (by decide)

/-! ## Claim C5 — the numbered-line ingredient batch protocol -/

/-- C5: for a non-empty batch of `n` ingredient texts, the payload is the
numbered lines `"<i>. <text>"`; whatever the provider answers, the result
list has length exactly `n` and keeps the input order, and every position
at or beyond the number of (numbering-stripped) response lines falls back
to the original untranslated text; the spec's echo example round-trips. -/
theorem c5_numbered_line_protocol (texts : List String) (call : String → String)
    (hne : texts ≠ []) :
    (translate_ingredient_batch call texts).length = texts.length ∧
    (∀ i, (parsedLines (call (numberedPayload texts))).length ≤ i →
      (translate_ingredient_batch call texts)[i]? = texts[i]?) ∧
    numberedPayload ["1 cup flour", "1 lb butter"] = "1. 1 cup flour\n2. 1 lb butter" ∧
    translate_ingredient_batch (fun _ => "1. 480 ml flour\n2. 455 g butter")
      ["1 cup flour", "1 lb butter"] = ["480 ml flour", "455 g butter"] := by
  have hemp : texts.isEmpty = false := by simp [hne]
  refine ⟨?_, ?_, by decide, by decide⟩
  · unfold translate_ingredient_batch
    simp only [hemp, Bool.false_eq_true, if_false]
    unfold padTruncate
    rw [List.length_take, List.length_append, List.length_drop]
    exact Nat.min_eq_left (by omega)
  · intro i hlen
    unfold translate_ingredient_batch
    simp only [hemp, Bool.false_eq_true, if_false]
    unfold padTruncate
    by_cases hi : i < texts.length
    · rw [List.getElem?_take, if_pos hi,
        List.getElem?_append_right hlen, List.getElem?_drop]
      congr 1
      omega
    · rw [List.getElem?_take, if_neg hi]
      exact (List.getElem?_eq_none (by omega)).symm

/-- C5 witness: the spec's example at the protocol theorem. -/
theorem c5_numbered_line_witness :
    (translate_ingredient_batch (fun _ => "1. 480 ml flour\n2. 455 g butter")
      ["1 cup flour", "1 lb butter"]).length = 2 ∧
    translate_ingredient_batch (fun _ => "1. 480 ml flour\n2. 455 g butter")
      ["1 cup flour", "1 lb butter"] = ["480 ml flour", "455 g butter"] := by
  have h := c5_numbered_line_protocol ["1 cup flour", "1 lb butter"]
    (fun _ => "1. 480 ml flour\n2. 455 g butter") (by decide)
  exact ⟨h.1, h.2.2.2⟩

/-! ## Claim C7 — the processed-marker predicate -/

/-- C7: on a recipe whose `extras` maps `"translated"` to a string `s`,
`is_recipe_processed` returns `True` exactly when `s` lowercases to
`"true"` or `"1"`; an absent `extras` bag or an absent `"translated"` key
yields `False`. -/
theorem c7_marker_predicate :
    (∀ (r d : List (String × PyVal)) (s : String),
      pyLookup r "extras" = some (.pdict d) →
      pyLookup d "translated" = some (.pstr s) →
      (is_recipe_processed (.pdict r) = .ok true ↔
        (pyLowerStr s = "true" ∨ pyLowerStr s = "1"))) ∧
    (∀ r : List (String × PyVal), pyLookup r "extras" = none →
      is_recipe_processed (.pdict r) = .ok false) ∧
    (∀ (r d : List (String × PyVal)), pyLookup r "extras" = some (.pdict d) →
      pyLookup d "translated" = none →
      is_recipe_processed (.pdict r) = .ok false) := by
  refine ⟨?_, ?_, ?_⟩
  · intro r d s hr hd
    simp [is_recipe_processed, pyDictGet, pyLowerVal, hr, hd,
      Bind.bind, Except.bind, pure, Except.pure]
  · intro r hr
    simp [is_recipe_processed, pyDictGet, pyLowerVal, hr, pyLookup, pyLowerStr,
      Bind.bind, Except.bind, pure, Except.pure]
  · intro r d hr hd
    simp [is_recipe_processed, pyDictGet, pyLowerVal, hr, hd, pyLowerStr,
      Bind.bind, Except.bind, pure, Except.pure]

/-! ## Claim C10 — `is_recipe_processed` is not total -/

/-- C10: `is_recipe_processed` raises (`AttributeError`) on a present-but-
null `extras` bag and on non-string marker values such as the integer `1`
or the boolean `True`; over dictionaries it returns a boolean exactly when
`extras` is absent or is a mapping whose `"translated"` value, if present,
is a string. -/
theorem c10_marker_not_total :
    is_recipe_processed (.pdict [("extras", .pnone)]) = .error .attributeError ∧
    is_recipe_processed (.pdict [("extras", .pdict [("translated", .pint 1)])])
        = .error .attributeError ∧
    is_recipe_processed (.pdict [("extras", .pdict [("translated", .pbool true)])])
        = .error .attributeError ∧
    ∀ r : List (String × PyVal),
      (∃ b, is_recipe_processed (.pdict r) = .ok b) ↔
        (pyLookup r "extras" = none ∨
         ∃ d, pyLookup r "extras" = some (.pdict d) ∧
           (pyLookup d "translated" = none ∨
            ∃ s, pyLookup d "translated" = some (.pstr s))) := by
  refine ⟨by decide, by decide, by decide, ?_⟩
  intro r
  cases hex : pyLookup r "extras" with
  | none =>
    have hval : is_recipe_processed (.pdict r) = .ok false := by
      simp only [is_recipe_processed, pyDictGet, pyLowerVal, hex, pyLookup,
        Option.getD_some, Option.getD_none, Bind.bind, Except.bind, pure, Except.pure]
      rfl
    exact iff_of_true ⟨false, hval⟩ (Or.inl rfl)
  | some v =>
    cases v with
    | pdict d =>
      cases hed : pyLookup d "translated" with
      | none =>
        have hval : is_recipe_processed (.pdict r) = .ok false := by
          simp only [is_recipe_processed, pyDictGet, pyLowerVal, hex, hed, pyLookup,
            Option.getD_some, Option.getD_none, Bind.bind, Except.bind, pure, Except.pure]
          rfl
        exact iff_of_true ⟨false, hval⟩ (Or.inr ⟨d, rfl, Or.inl hed⟩)
      | some w =>
        cases w with
        | pstr s =>
          have hval : is_recipe_processed (.pdict r) =
              .ok (decide (pyLowerStr s = "true") || decide (pyLowerStr s = "1")) := by
            simp only [is_recipe_processed, pyDictGet, pyLowerVal, hex, hed, pyLookup,
              Option.getD_some, Option.getD_none, Bind.bind, Except.bind, pure, Except.pure]
          exact iff_of_true ⟨_, hval⟩ (Or.inr ⟨d, rfl, Or.inr ⟨s, hed⟩⟩)
        | pint n =>
          have hval : is_recipe_processed (.pdict r) = .error .attributeError := by
            simp only [is_recipe_processed, pyDictGet, pyLowerVal, hex, hed, pyLookup,
              Option.getD_some, Option.getD_none, Bind.bind, Except.bind, pure, Except.pure]
          refine iff_of_false ?_ ?_
          · rintro ⟨b, hb⟩
            rw [hval] at hb
            cases hb
          · rintro (hc | ⟨d2, hd2, hc⟩)
            · cases hc
            · cases hd2
              rcases hc with hc | ⟨s, hc⟩ <;> rw [hed] at hc <;> cases hc
        | pbool b =>
          have hval : is_recipe_processed (.pdict r) = .error .attributeError := by
            simp only [is_recipe_processed, pyDictGet, pyLowerVal, hex, hed, pyLookup,
              Option.getD_some, Option.getD_none, Bind.bind, Except.bind, pure, Except.pure]
          refine iff_of_false ?_ ?_
          · rintro ⟨b2, hb⟩
            rw [hval] at hb
            cases hb
          · rintro (hc | ⟨d2, hd2, hc⟩)
            · cases hc
            · cases hd2
              rcases hc with hc | ⟨s, hc⟩ <;> rw [hed] at hc <;> cases hc
        | pnone =>
          have hval : is_recipe_processed (.pdict r) = .error .attributeError := by
            simp only [is_recipe_processed, pyDictGet, pyLowerVal, hex, hed, pyLookup,
              Option.getD_some, Option.getD_none, Bind.bind, Except.bind, pure, Except.pure]
          refine iff_of_false ?_ ?_
          · rintro ⟨b2, hb⟩
            rw [hval] at hb
            cases hb
          · rintro (hc | ⟨d2, hd2, hc⟩)
            · cases hc
            · cases hd2
              rcases hc with hc | ⟨s, hc⟩ <;> rw [hed] at hc <;> cases hc
        | pdict d2 =>
          have hval : is_recipe_processed (.pdict r) = .error .attributeError := by
            simp only [is_recipe_processed, pyDictGet, pyLowerVal, hex, hed, pyLookup,
              Option.getD_some, Option.getD_none, Bind.bind, Except.bind, pure, Except.pure]
          refine iff_of_false ?_ ?_
          · rintro ⟨b2, hb⟩
            rw [hval] at hb
            cases hb
          · rintro (hc | ⟨d3, hd3, hc⟩)
            · cases hc
            · cases hd3
              rcases hc with hc | ⟨s, hc⟩ <;> rw [hed] at hc <;> cases hc
    | pstr s =>
      have hval : is_recipe_processed (.pdict r) = .error .attributeError := by
        simp only [is_recipe_processed, pyDictGet, pyLowerVal, hex, pyLookup,
          Option.getD_some, Option.getD_none, Bind.bind, Except.bind, pure, Except.pure]
      refine iff_of_false ?_ ?_
      · rintro ⟨b2, hb⟩
        rw [hval] at hb
        cases hb
      · rintro (hc | ⟨d2, hd2, hc⟩)
        · cases hc
        · cases hd2
    | pint n =>
      have hval : is_recipe_processed (.pdict r) = .error .attributeError := by
        simp only [is_recipe_processed, pyDictGet, pyLowerVal, hex, pyLookup,
          Option.getD_some, Option.getD_none, Bind.bind, Except.bind, pure, Except.pure]
      refine iff_of_false ?_ ?_
      · rintro ⟨b2, hb⟩
        rw [hval] at hb
        cases hb
      · rintro (hc | ⟨d2, hd2, hc⟩)
        · cases hc
        · cases hd2
    | pbool b =>
      have hval : is_recipe_processed (.pdict r) = .error .attributeError := by
        simp only [is_recipe_processed, pyDictGet, pyLowerVal, hex, pyLookup,
          Option.getD_some, Option.getD_none, Bind.bind, Except.bind, pure, Except.pure]
      refine iff_of_false ?_ ?_
      · rintro ⟨b2, hb⟩
        rw [hval] at hb
        cases hb
      · rintro (hc | ⟨d2, hd2, hc⟩)
        · cases hc
        · cases hd2
    | pnone =>
      have hval : is_recipe_processed (.pdict r) = .error .attributeError := by
        simp only [is_recipe_processed, pyDictGet, pyLowerVal, hex, pyLookup,
          Option.getD_some, Option.getD_none, Bind.bind, Except.bind, pure, Except.pure]
      refine iff_of_false ?_ ?_
      · rintro ⟨b2, hb⟩
        rw [hval] at hb
        cases hb
      · rintro (hc | ⟨d2, hd2, hc⟩)
        · cases hc
        · cases hd2

/-! ## Claim C8 — retry with exponential backoff -/

/-- With an all-failing oracle, the loop body consumes all its fuel,
sleeping `delay * 2 ^ attempt` after every attempt but the last, and
raises the constructed error for the last attempt's cause. -/
theorem callLoopGo_all_fail (oracle : Nat → Except Nat (Option String))
    (f : Nat → Nat) (mk : Nat → RaisedInfo) (mr delay : Nat)
    (hf : ∀ i, oracle i = .error (f i)) :
    ∀ (fuel attempt : Nat) (sleeps : List Nat), fuel + attempt = mr → 0 < fuel →
      callLoopGo oracle mk mr delay fuel attempt sleeps =
        ⟨mr, sleeps ++ (List.range' attempt (fuel - 1)).map (fun i => delay * 2 ^ i),
         .error (mk (f (mr - 1)))⟩ := by
  intro fuel
  induction fuel with
  | zero => intro attempt sleeps hsum hpos; cases hpos
  | succ n ih =>
    intro attempt sleeps hsum hpos
    unfold callLoopGo
    simp only [hf attempt]
    cases n with
    | zero =>
      have hatt : attempt = mr - 1 := by omega
      rw [if_neg (by omega)]
      simp [hatt]
      omega
    | succ m =>
      rw [if_pos (by omega)]
      rw [ih (attempt + 1) (sleeps ++ [delay * 2 ^ attempt]) (by omega) (by omega)]
      have hr : List.range' attempt (m + 2 - 1) = attempt :: List.range' (attempt + 1) m := by
        have : m + 2 - 1 = m + 1 := by omega
        rw [this]
        exact List.range'_succ attempt m 1
      rw [hr]
      simp

/-- C8 (amended): when every provider call fails and `max_retries ≥ 1`,
both retry loops make exactly `max_retries` attempts and sleep
`retry_delay * 2 ^ attempt` between consecutive attempts; after
exhaustion, the provider implementation (`OpenAITranslator._call_openai`)
raises a typed `TranslationError` carrying the provider name `"openai"`
and the last attempt's cause, while the legacy
`RecipeTranslator._call_openai` raises an untyped bare `Exception` that is
chained from the cause but carries no provider name. -/
theorem c8_retry_exponential_backoff (oracle : Nat → Except Nat (Option String))
    (f : Nat → Nat) (mr delay : Nat) (hmr : 0 < mr)
    (hf : ∀ i, oracle i = .error (f i)) :
    (call_openai_typed oracle mr delay).attempts = mr ∧
    (call_openai_typed oracle mr delay).sleeps
        = (List.range (mr - 1)).map (fun i => delay * 2 ^ i) ∧
    (call_openai_typed oracle mr delay).result
        = .error ⟨true, some "openai", some (f (mr - 1))⟩ ∧
    (call_openai_legacy oracle mr delay).attempts = mr ∧
    (call_openai_legacy oracle mr delay).sleeps
        = (List.range (mr - 1)).map (fun i => delay * 2 ^ i) ∧
    (call_openai_legacy oracle mr delay).result
        = .error ⟨false, none, some (f (mr - 1))⟩ := by
  have htyped := callLoopGo_all_fail oracle f
    (fun e => ⟨true, some "openai", some e⟩) mr delay hf mr 0 [] (by omega) hmr
  have hlegacy := callLoopGo_all_fail oracle f
    (fun e => ⟨false, none, some e⟩) mr delay hf mr 0 [] (by omega) hmr
  unfold call_openai_typed call_openai_legacy
  rw [htyped, hlegacy]
  rw [List.range_eq_range' (mr - 1)]
  simp

/-- C8 counterexample: with three all-failing attempts, the legacy
`RecipeTranslator._call_openai` (the translator the orchestrator actually
uses) ends by raising an error that is not a typed translation error and
carries no provider name — refuting the claim that the retry loop raises
a typed translation error carrying the provider name. -/
theorem c8_untyped_error_counterexample :
    (call_openai_legacy (fun i => .error i) 3 1).result
        = .error ⟨false, none, some 2⟩ ∧
    (call_openai_legacy (fun i => .error i) 3 1).attempts = 3 ∧
    (call_openai_legacy (fun i => .error i) 3 1).sleeps = [1, 2] := by decide

/-- C8 witness: three failing attempts at delay 1 — three attempts, sleeps
`[1, 2]`, and the two loops' final errors. -/
theorem c8_retry_witness :
    (call_openai_typed (fun i => .error i) 3 1).attempts = 3 ∧
    (call_openai_typed (fun i => .error i) 3 1).sleeps
        = (List.range 2).map (fun i => 1 * 2 ^ i) ∧
    (call_openai_typed (fun i => .error i) 3 1).result
        = .error ⟨true, some "openai", some 2⟩ ∧
    (call_openai_legacy (fun i => .error i) 3 1).attempts = 3 ∧
    (call_openai_legacy (fun i => .error i) 3 1).sleeps
        = (List.range 2).map (fun i => 1 * 2 ^ i) ∧
    (call_openai_legacy (fun i => .error i) 3 1).result
        = .error ⟨false, none, some 2⟩ :=
  c8_retry_exponential_backoff (fun i => .error i) (fun i => i) 3 1
    (by decide) (fun i => rfl)

end MealieTranslate
